import Mathlib

/-!
Shallow embedding of the knoway LLM gateway core (Go) in Lean 4, together
with theorems settling the frozen claims C1..C10 about its specification.

Each definition is translated from the Go source file named in its doc
comment.  Definitions whose Go source is not part of the provided tree are
marked `Modelled from the spec:`.
-/

namespace Knoway

/-! ## Error taxonomy (src/pkg/object/errors.go) -/

namespace Object

/-- `LLMErrorCode` constants of src/pkg/object/errors.go lines 16-27. -/
inductive LLMErrorCode where
  | modelNotFoundOrNotAccessible
  | modelAccessDenied
  | rateLimitExceeded
  | insufficientQuota
  | missingAPIKey
  | incorrectAPIKey
  | missingModel
  | serviceUnavailable
  | internalError
  | badGateway
deriving DecidableEq, Repr

/-- The string value each `LLMErrorCode` constant is declared with
(src/pkg/object/errors.go lines 16-27). -/
def LLMErrorCode.codeString : LLMErrorCode → String
  | .modelNotFoundOrNotAccessible => "model_not_found"
  | .modelAccessDenied => "model_access_denied"
  | .rateLimitExceeded => "model_rate_limit_exceeded"
  | .insufficientQuota => "insufficient_quota"
  | .missingAPIKey => "missing_api_key"
  | .incorrectAPIKey => "incorrect_api_key"
  | .missingModel => "missing_model"
  | .serviceUnavailable => "service_unavailable"
  | .internalError => "internal_error"
  | .badGateway => "bad_gateway"

/-- `BaseLLMError` together with its inner `BaseError`
(src/pkg/object/errors.go lines 31-39): HTTP status, optional code
pointer, message. -/
structure BaseLLMError where
  status : Nat
  code : Option LLMErrorCode
  message : String
deriving DecidableEq, Repr

/-- `NewErrorModelNotFoundOrNotAccessible` (errors.go lines 102-110);
`http.StatusNotFound` is 404. -/
def NewErrorModelNotFoundOrNotAccessible (model : String) : BaseLLMError :=
  { status := 404
    code := some .modelNotFoundOrNotAccessible
    message := "The model `" ++ model ++ "` does not exist or you do not have access to it." }

/-- `NewErrorModelAccessDenied` (errors.go lines 112-120);
`http.StatusForbidden` is 403. -/
def NewErrorModelAccessDenied (model : String) : BaseLLMError :=
  { status := 403
    code := some .modelAccessDenied
    message := "You do not have access to the model `" ++ model ++ "`." }

/-- `NewErrorRateLimitExceeded` (errors.go lines 122-130);
`http.StatusTooManyRequests` is 429. -/
def NewErrorRateLimitExceeded : BaseLLMError :=
  { status := 429
    code := some .rateLimitExceeded
    message := "You have exceeded the rate limit. Please try again later." }

/-- `NewErrorInsufficientQuota` (errors.go lines 132-140);
`http.StatusPaymentRequired` is 402. -/
def NewErrorInsufficientQuota : BaseLLMError :=
  { status := 402
    code := some .insufficientQuota
    message := "You exceeded your current quota." }

/-- `NewErrorMissingAPIKey` (errors.go lines 142-150);
`http.StatusUnauthorized` is 401. -/
def NewErrorMissingAPIKey : BaseLLMError :=
  { status := 401
    code := some .missingAPIKey
    message := "Missing API key" }

/-- `NewErrorIncorrectAPIKey` (errors.go lines 152-160);
`http.StatusUnauthorized` is 401. -/
def NewErrorIncorrectAPIKey (apiKey : String) : BaseLLMError :=
  { status := 401
    code := some .incorrectAPIKey
    message := "Incorrect API key provided: " ++ apiKey }

/-- `NewErrorMissingModel` (errors.go lines 162-170);
`http.StatusNotFound` is 404. -/
def NewErrorMissingModel : BaseLLMError :=
  { status := 404
    code := some .missingModel
    message := "Missing required parameter: '" ++ "model" ++ "'." }

/-- `NewErrorInternalError` (errors.go lines 172-182): appends an
"internal error" sentinel and uses the first non-nil error's message;
`http.StatusInternalServerError` is 500.  The variadic non-nil `error`
arguments are modelled by their messages. -/
def NewErrorInternalError (internalErrs : List String) : BaseLLMError :=
  { status := 500
    code := some .internalError
    message := (internalErrs ++ ["internal error"]).headD "" }

/-- `NewErrorBadGateway` (errors.go lines 184-192): uses the upstream
error's message, falling back to "bad gateway" when the argument is nil;
`http.StatusBadGateway` is 502. -/
def NewErrorBadGateway (upstreamErr : Option String) : BaseLLMError :=
  { status := 502
    code := some .badGateway
    message := upstreamErr.getD "bad gateway" }

/-- `NewErrorServiceUnavailable` (errors.go lines 194-202);
`http.StatusServiceUnavailable` is 503. -/
def NewErrorServiceUnavailable : BaseLLMError :=
  { status := 503
    code := some .serviceUnavailable
    message := "service unavailable" }

end Object

end Knoway

namespace Knoway

/-! ## Route configuration records (knoway.dev/api/route/v1alpha1)

The protobuf-generated Go for the `Route` message is not part of the
provided tree; the records below are modelled from the spec's route
config section ("`{name, matches: [{model: StringMatch{exact|prefix}}],
targets: [{cluster, namespace, weight}], load_balance_policy, filters,
fallback: {pre_delay, post_delay, max_retries}}`") with the standard
protobuf-go getter conventions (nil-safe getters returning zero values,
`oneof` accessors returning the zero value for the other variant). -/

namespace RouteV1alpha1

/-- Modelled from the spec: the `StringMatch` oneof with `exact` and
`prefix` variants. -/
inductive StringMatch where
  | exact (s : String)
  | prefix_ (s : String)
deriving DecidableEq, Repr

/-- `GetExact` of the generated oneof accessor: the exact string when the
variant is `exact`, the empty string otherwise (including a nil
`StringMatch`). -/
def getExact : Option StringMatch → String
  | some (.exact s) => s
  | _ => ""

/-- Modelled from the spec: one `matches` entry, carrying an optional
`model` string match. -/
structure MatchEntry where
  model : Option StringMatch
deriving DecidableEq, Repr

/-- Modelled from the spec: one route target's destination
`{cluster, namespace, weight}`.  `weight` is an optional int32 pointer in
the proto (`lo.ToPtr(int32(...))` in the tests); `GetWeight` yields 0
when unset. -/
structure RouteDestination where
  cluster : String
  namespace_ : String
  weight : Option Int
deriving DecidableEq, Repr

/-- `GetWeight` getter: pointer value or 0. -/
def RouteDestination.getWeight (d : RouteDestination) : Int :=
  d.weight.getD 0

/-- Modelled from the spec: the route `fallback` block
`{pre_delay, post_delay, max_retries}`.  Delays are optional durations
(modelled as nanoseconds), `max_retries` an optional uint64. -/
structure Fallback where
  preDelay : Option Nat
  postDelay : Option Nat
  maxRetries : Option Nat
deriving DecidableEq, Repr

/-- `GetMaxRetries` getter: pointer value or 0. -/
def Fallback.getMaxRetries (f : Fallback) : Nat :=
  f.maxRetries.getD 0

/-- Modelled from the spec: the parts of the `Route` proto message that
`routeDefault` consults: `matches` (called `matchList` here because
`matches` is reserved in Lean), `targets` (flattened to their
destinations, as `loadbalance.New` does) and `fallback`. -/
structure Route where
  name : String
  matchList : List MatchEntry
  targets : List RouteDestination
  fallback : Option Fallback
deriving DecidableEq, Repr

end RouteV1alpha1

/-! ## routeDefault.Match (src/unnamed/part_004 lines 63-92) -/

namespace Route

open RouteV1alpha1

/-- `strings.HasPrefix`, computed over the character lists so the kernel
can evaluate it. -/
def strHasPrefix (p s : String) : Bool := p.data.isPrefixOf s.data

/-- `routeDefault.Match` (src/unnamed/part_004 lines 63-92): returns
false on an empty `matches` list; otherwise scans the entries, skipping a
nil `model`, an empty `exact` string, a non-equal model, or an empty
target list, and returns true at the first surviving entry. -/
def routeMatch (cfg : RouteV1alpha1.Route) (requestModel : String) : Bool :=
  if cfg.matchList.isEmpty then false
  else go cfg cfg.matchList requestModel
where
  /-- The `for _, match := range matches` loop body. -/
  go (cfg : RouteV1alpha1.Route) : List MatchEntry → String → Bool
    | [], _ => false
    | m :: rest, requestModel =>
      let exactMatch := getExact m.model
      if exactMatch = "" then go cfg rest requestModel
      else if requestModel ≠ exactMatch then go cfg rest requestModel
      else if cfg.targets.isEmpty then go cfg rest requestModel
      else true

/-- The spec's wording of a model binding ("model.exact (or prefix)
string-match binds to the request's model"), stated for comparison with
`routeMatch`: an exact entry binds on equality, a prefix entry binds when
it is a prefix of the request model. -/
def specModelBinds (m : StringMatch) (requestModel : String) : Bool :=
  match m with
  | .exact s => requestModel = s
  | .prefix_ p => strHasPrefix p requestModel

/-- `defaultRouteFallbackMaxRetries` (src/unnamed/part_004 line 25). -/
def defaultRouteFallbackMaxRetries : Nat := 3

/-- The possible outcomes of one `clustermanager.HandleRequest` call as
seen by the fallback loop of `routeDefault.HandleRequest`: a nil error, a
`openai.SkipStreamResponse` error, or any other non-nil error. -/
inductive ClusterCallResult where
  | ok
  | skipStream
  | err
deriving DecidableEq, Repr

/-- The fallback loop of `routeDefault.HandleRequest`
(src/unnamed/part_004 lines 118-196), with the cluster call abstracted as
the per-attempt outcome `call` and given `fuel` loop iterations.  Per the
source: a nil or `SkipStreamResponse` error returns immediately; with no
`fallback` configured the error returns immediately; with a fallback
whose `MaxRetries` pointer is non-nil the loop returns once
`retriedCount >= lo.CoalesceOrEmpty(GetMaxRetries(), 3)` (so a value of 0
falls back to the default 3) and otherwise increments `retriedCount` and
continues; with a nil `MaxRetries` pointer the loop body falls through
and iterates again without touching `retriedCount`.  `none` means the
given fuel was exhausted without the loop returning. -/
def handleRequestLoop (fb : Option RouteV1alpha1.Fallback)
    (call : Nat → ClusterCallResult) :
    Nat → Nat → Nat → Option (Nat × ClusterCallResult)
  | 0, _, _ => none
  | fuel + 1, attempt, retriedCount =>
    match call attempt with
    | .ok => some (attempt, .ok)
    | .skipStream => some (attempt, .skipStream)
    | .err =>
      match fb with
      | none => some (attempt, .err)
      | some f =>
        match f.maxRetries with
        | some mr =>
          if (if mr = 0 then defaultRouteFallbackMaxRetries else mr) ≤ retriedCount then
            some (attempt, .err)
          else
            handleRequestLoop fb call fuel (attempt + 1) (retriedCount + 1)
        | none => handleRequestLoop fb call fuel (attempt + 1) retriedCount

end Route

/-! ## Route manager (src/pkg/route/manager/manager.go) -/

namespace Manager

open RouteV1alpha1 Route

/-- The `uniqueRoutes` map built by `mergeRoutes` (manager.go lines
112-126): every entry of `matchRouteRegistry`, plus the entries of
`routeRegistry` whose key is not already present, i.e. the union of the
two maps with match-routes winning on name collision.  Go maps are
modelled as partial functions from keys. -/
def uniqueRoutes (matchRouteRegistry routeRegistry : String → Option RouteV1alpha1.Route)
    (k : String) : Option RouteV1alpha1.Route :=
  match matchRouteRegistry k with
  | some r => some r
  | none => routeRegistry k

/-- `mergeRoutes` returns `lo.Values(uniqueRoutes)`, which enumerates a Go
map in an unspecified iteration order.  A list `out` is a possible result
of `mergeRoutes` iff it is `keys.filterMap (uniqueRoutes mr br)` for some
duplicate-free enumeration `keys` of exactly the keys of the union map. -/
def IsMergeEnumeration (mr br : String → Option RouteV1alpha1.Route)
    (keys : List String) (out : List RouteV1alpha1.Route) : Prop :=
  keys.Nodup ∧ (∀ k, (uniqueRoutes mr br k).isSome ↔ k ∈ keys) ∧
    out = keys.filterMap (uniqueRoutes mr br)

/-- The scan of `MatchRoute` (manager.go lines 128-139): return the first
route of the merged `routes` list whose `Match` accepts the request, or
nil. -/
def matchRouteScan (routes : List RouteV1alpha1.Route) (requestModel : String) :
    Option RouteV1alpha1.Route :=
  match routes with
  | [] => none
  | r :: rest =>
    if routeMatch r requestModel then some r else matchRouteScan rest requestModel

end Manager

/-! ## Concrete route records used as test inputs in the theorems -/

namespace Examples

open RouteV1alpha1 Manager

/-- A route whose single match entry is a prefix match `gpt-`, with one
target. -/
def prefixOnlyRoute : RouteV1alpha1.Route :=
  { name := "r"
    matchList := [{ model := some (.prefix_ "gpt-") }]
    targets := [{ cluster := "c", namespace_ := "ns", weight := none }]
    fallback := none }

/-- A registered route named "a" matching model "m". -/
def routeA : RouteV1alpha1.Route :=
  { name := "a"
    matchList := [{ model := some (.exact "m") }]
    targets := [{ cluster := "a", namespace_ := "ns", weight := none }]
    fallback := none }

/-- A registered route named "b" also matching model "m". -/
def routeB : RouteV1alpha1.Route :=
  { name := "b"
    matchList := [{ model := some (.exact "m") }]
    targets := [{ cluster := "b", namespace_ := "ns", weight := none }]
    fallback := none }

/-- A match-route registry holding `routeA` and `routeB`. -/
def exMatchReg : String → Option RouteV1alpha1.Route := fun k =>
  if k = "a" then some routeA else if k = "b" then some routeB else none

/-- An empty base-route registry. -/
def exBaseReg : String → Option RouteV1alpha1.Route := fun _ => none

end Examples


/-! ## Load balancers (src/pkg/route/manager/manager.go, loadbalance part) -/

namespace Loadbalance

/-- `memoryRequestCounter.Desc` (loadbalance source lines 316-320): when
the count is positive the code executes `m.count.And(-1)` — an atomic
bitwise AND with -1 (all ones) — otherwise it does nothing.  The int32
counter is modelled as `Int`. -/
def memoryRequestCounterDesc (count : Int) : Int :=
  if 0 < count then Int.land count (-1) else count

/-- `memoryRequestCounter.Inc` (loadbalance source lines 312-314). -/
def memoryRequestCounterInc (count : Int) : Int :=
  count + 1

/-- One entry of `WeightedRoundRobin.servers`, holding the destination
cluster name and its (int32) weight, as built by `newServers`. -/
structure Server where
  name : String
  weight : Int
deriving DecidableEq, Repr, Inhabited

/-- `calculateTotalWeight` of `WeightedRoundRobin` (loadbalance source
lines 232-236): the sum of the servers' weights. -/
def calculateTotalWeight (servers : List Server) : Int :=
  (servers.map (·.weight)).sum

/-- The cumulative weight the `Next` loop has accumulated after visiting
`i` servers starting from index `current`: `cumul servers current 0 = 0`
and each step adds the weight of index `(current + i) % N` — the running
`total` variable of the loop. -/
def cumul (servers : List Server) (current : Nat) : Nat → Int
  | 0 => 0
  | i + 1 =>
    cumul servers current i +
      (servers.getD ((current + i) % servers.length) default).weight

/-- The scan loop of `WeightedRoundRobin.Next` (loadbalance source lines
263-274): `k` iterations remain, `i` servers already visited, `total`
accumulated so far; returns the first index `(current + i) % N` whose
accumulated total exceeds the draw `r`, or none after all `k` iterations
(`foundIdx == -1`). -/
def wrrScanGo (servers : List Server) (current : Nat) (r : Int) :
    Nat → Nat → Int → Option Nat
  | 0, _, _ => none
  | k + 1, i, total =>
    let idx := (current + i) % servers.length
    let total' := total + (servers.getD idx default).weight
    if r < total' then some idx
    else wrrScanGo servers current r k (i + 1) total'

/-- `WeightedRoundRobin.Next` (loadbalance source lines 240-285).  The
`crypto/rand` draw is abstracted as `draw`: `none` models a failed draw
(`err != nil`), `some r` a successful draw of `r`.  Returns the selected
cluster name and the new value of the rolling `current` index (unchanged
on the early-return paths, which do not store). -/
def wrrNext (servers : List Server) (current : Nat) (draw : Option Int) :
    String × Nat :=
  if servers.length = 0 then ("", current)
  else if servers.length = 1 then ((servers.getD 0 default).name, current)
  else
    match draw with
    | none => ("", current)
    | some r =>
      let foundIdx := (wrrScanGo servers current r servers.length 0 0).getD current
      ((servers.getD foundIdx default).name, (foundIdx + 1) % servers.length)

end Loadbalance

/-! ## Auth filter model-access check (src/unnamed/part_006 lines 651-705) -/

namespace Auth

/-- `IsDenied` (src/unnamed/part_006 lines 651-665): false on an empty
deny list, otherwise true iff some deny rule glob-matches the request
model.  `doublestar.Match` is abstracted as `globMatch`, returning `none`
on a pattern error (which the code treats as no match, `err != nil →
false`) and `some b` otherwise. -/
def IsDenied (globMatch : String → String → Option Bool)
    (requestModel : String) (denyModels : List String) : Bool :=
  if denyModels.isEmpty then false
  else denyModels.any fun rule => (globMatch rule requestModel).getD false

/-- `IsGranted` (src/unnamed/part_006 lines 667-683): an empty allow list
means every model is granted; otherwise true iff some allow rule
glob-matches the request model. -/
def IsGranted (globMatch : String → String → Option Bool)
    (requestModel : String) (allowModels : List String) : Bool :=
  if allowModels.isEmpty then true
  else allowModels.any fun rule => (globMatch rule requestModel).getD false

/-- `CanAccessModelFromValues` (src/unnamed/part_006 lines 703-705). -/
def CanAccessModelFromValues (isDenied isGranted : Bool) : Bool :=
  !isDenied && isGranted

/-- `CanAccessModel` (src/unnamed/part_006 lines 696-701). -/
def CanAccessModel (globMatch : String → String → Option Bool)
    (requestModel : String) (allowModels denyModels : List String) : Bool :=
  CanAccessModelFromValues (IsDenied globMatch requestModel denyModels)
    (IsGranted globMatch requestModel allowModels)

end Auth

/-! ## Chat-completion SSE stream
(src/pkg/types/openai/chat_completions_stream.go) -/

namespace OpenAIStream

/-- `bytes.TrimSpace`: strip leading and trailing whitespace, computed
over character lists so the kernel can evaluate it. -/
def trimSpace (s : String) : String :=
  String.mk (((s.data.dropWhile Char.isWhitespace).reverse.dropWhile
    Char.isWhitespace).reverse)

/-- `bytes.HasPrefix`. -/
def hasPrefixB (p s : String) : Bool := p.data.isPrefixOf s.data

/-- `bytes.TrimPrefix`: drop the prefix when present, otherwise return
the input unchanged. -/
def trimPrefixB (p s : String) : String :=
  if hasPrefixB p s then String.mk (s.data.drop p.data.length) else s

/-- `bytes.Contains` on character lists: some (possibly empty) substring
of the haystack equals the needle. -/
def containsSubList (needle : List Char) : List Char → Bool
  | [] => needle.isEmpty
  | c :: rest => needle.isPrefixOf (c :: rest) || containsSubList needle rest

/-- `bytes.Contains`. -/
def containsB (hay needle : String) : Bool := containsSubList needle.data hay.data

/-- `headerData` (chat_completions_stream.go line 185). -/
def headerData : String := "data: "

/-- `errorPrefix` (chat_completions_stream.go line 186). -/
def errorPrefix : String := "data: \x7b\"error\":"

/-- `usageCompletionTokens` (chat_completions_stream.go line 187). -/
def usageCompletionTokens : String := "\"completion_tokens\":"

/-- The chunk-processing state of `ChatCompletionStreamResponse`
(chat_completions_stream.go lines 202-206): the `hasErrorPrefix` flag,
the `isDone` flag and the `chunkNum` counter. -/
structure StreamState where
  chunkNum : Nat
  isDone : Bool
  hasErrorPrefix : Bool
deriving DecidableEq, Repr

/-- `ChatCompletionStreamResponse.IsFirst` (lines 233-238): whether
exactly one data chunk has been counted. -/
def streamIsFirst (s : StreamState) : Bool := s.chunkNum == 1

/-- The discriminant flags of `ChatCompletionStreamChunk`
(lines 28-31). -/
structure Chunk where
  isEmpty : Bool
  isDone : Bool
  isUsage : Bool
  isFirst : Bool
deriving DecidableEq, Repr

/-- `NewEmptyChatCompletionStreamChunk` (lines 58-66): an empty chunk
whose `isFirst` records the stream's current `IsFirst()`. -/
def NewEmptyChatCompletionStreamChunk (s : StreamState) : Chunk :=
  { isEmpty := true, isDone := false, isUsage := false, isFirst := streamIsFirst s }

/-- `NewDoneChatCompletionStreamChunk` (lines 99-106): only `isDone` is
set; in particular `isFirst` is never set on a done chunk. -/
def NewDoneChatCompletionStreamChunk : Chunk :=
  { isEmpty := false, isDone := true, isUsage := false, isFirst := false }

/-- The success result of `NewChatCompletionStreamChunk` (lines 34-56). -/
def NewChatCompletionStreamChunk (s : StreamState) : Chunk :=
  { isEmpty := false, isDone := false, isUsage := false, isFirst := streamIsFirst s }

/-- The success result of `NewUsageChatCompletionStreamChunk`
(lines 68-97). -/
def NewUsageChatCompletionStreamChunk (s : StreamState) : Chunk :=
  { isEmpty := false, isDone := false, isUsage := true, isFirst := streamIsFirst s }

/-- The error value `NextChunk` returns alongside the chunk: nil,
`io.EOF` (the `[DONE]` branch), the reader's own error (modelled as
`readErr`; at the end of the upstream stream this is also `io.EOF`), or a
constructor/JSON error (`parseErr`). -/
inductive NextChunkErr where
  | noErr
  | eof
  | readErr
  | parseErr
deriving DecidableEq, Repr

/-- `ChatCompletionStreamResponse.NextChunk` (lines 265-364) as a state
transition on one read line.  `line = none` models a failed
`reader.ReadBytes` (`err != nil`).  The JSON/constructor success of
`NewChatCompletionStreamChunk` and `NewUsageChatCompletionStreamChunk`
(json.Unmarshal, FromMap and the possible `SetModel`) is abstracted by
the oracles `chunkOk` and `usageOk` on the line's payload; on a usage
constructor failure the code returns the still-nil `chunk` variable
(modelled as `none`), on a plain constructor failure it returns the empty
chunk the constructor produced.  Returns the new state, the chunk and the
error. -/
def NextChunk (chunkOk usageOk : String → Bool) (s : StreamState)
    (line : Option String) : StreamState × Option Chunk × NextChunkErr :=
  match line with
  | none => (s, some (NewEmptyChatCompletionStreamChunk s), .readErr)
  | some l =>
    if s.hasErrorPrefix then (s, some (NewEmptyChatCompletionStreamChunk s), .noErr)
    else
      let noSpaceLine := trimSpace l
      let s1 := if hasPrefixB errorPrefix noSpaceLine then
        { s with hasErrorPrefix := true } else s
      if !hasPrefixB headerData noSpaceLine || s1.hasErrorPrefix then
        (s1, some (NewEmptyChatCompletionStreamChunk s1), .noErr)
      else
        let s2 := { s1 with chunkNum := s1.chunkNum + 1 }
        let noPrefixLine := trimPrefixB headerData noSpaceLine
        if noPrefixLine = "[DONE]" then
          ({ s2 with isDone := true }, some NewDoneChatCompletionStreamChunk, .eof)
        else if containsB noPrefixLine usageCompletionTokens then
          if usageOk noPrefixLine then
            (s2, some (NewUsageChatCompletionStreamChunk s2), .noErr)
          else
            (s2, none, .parseErr)
        else
          if chunkOk noPrefixLine then
            (s2, some (NewChatCompletionStreamChunk s2), .noErr)
          else
            (s2, some (NewEmptyChatCompletionStreamChunk s2), .parseErr)

/-- The fresh stream state built by `NewChatCompletionStreamResponse`
(lines 216-226). -/
def initStreamState : StreamState :=
  { chunkNum := 0, isDone := false, hasErrorPrefix := false }

/-- Repeated `NextChunk` calls over a list of read lines, collecting the
returned chunks and errors. -/
def runStream (chunkOk usageOk : String → Bool) (s : StreamState) :
    List (Option String) → List (Option Chunk × NextChunkErr) × StreamState
  | [] => ([], s)
  | line :: rest =>
    let step := NextChunk chunkOk usageOk s line
    let tail := runStream chunkOk usageOk step.1 rest
    (step.2 :: tail.1, tail.2)

/-- The number of usage chunks among the results. -/
def countUsage (results : List (Option Chunk × NextChunkErr)) : Nat :=
  results.countP fun r => match r.1 with
    | some ch => ch.isUsage
    | none => false

/-- The number of first-flagged chunks among the results. -/
def countFirst (results : List (Option Chunk × NextChunkErr)) : Nat :=
  results.countP fun r => match r.1 with
    | some ch => ch.isFirst
    | none => false

end OpenAIStream

/-! ## Request-body JSON patching
(src/pkg/types/openai/text_to_speech_request.go and common.go)

The wire body kept in `bodyBuffer` is modelled as the JSON document its
bytes parse to; `json.Unmarshal` of an object yields its field mapping.
The patch builders `NewAdd`/`NewRemove`/`NewReplace` and the evanphx
json-patch library are modelled from the spec ("Mutations are applied via
a JSON-patch equivalent") with RFC 6902 semantics at the single-segment
paths `"/" + key` the request code uses: `add` on an existing object
member replaces its value, otherwise appends it; `remove` fails on a
missing member unless `AllowMissingPathOnRemove`; `replace` fails on a
missing member.  `EnsurePathExistsOnAdd` only concerns missing parent
paths and is inert on the single-segment paths used here. -/

namespace OpenAIReq

/-- A JSON document. -/
inductive Json where
  | null
  | bool (b : Bool)
  | num (n : Int)
  | str (s : String)
  | arr (elems : List Json)
  | obj (fields : List (String × Json))

/-- Lookup of an object member (`parsed[k]`). -/
def lookupField (fields : List (String × Json)) (k : String) : Option Json :=
  match fields with
  | [] => none
  | (k', v) :: rest => if k' = k then some v else lookupField rest k

/-- RFC 6902 `add` on an object: replace the member if present, else
append it. -/
def setField : List (String × Json) → String → Json → List (String × Json)
  | [], k, v => [(k, v)]
  | (k', v') :: rest, k, v =>
    if k' = k then (k, v) :: rest else (k', v') :: setField rest k v

/-- RFC 6902 `remove` on an object: drop the member. -/
def removeField : List (String × Json) → String → List (String × Json)
  | [], _ => []
  | (k', v') :: rest, k => if k' = k then rest else (k', v') :: removeField rest k

/-- `jsonpatch.ApplyOptions`: the two options the request code sets. -/
structure ApplyOptions where
  ensurePathExistsOnAdd : Bool
  allowMissingPathOnRemove : Bool
deriving DecidableEq, Repr

/-- `jsonpatch.NewApplyOptions()`: both options off. -/
def newApplyOptions : ApplyOptions :=
  { ensurePathExistsOnAdd := false, allowMissingPathOnRemove := false }

/-- A `JSONPatchOperationObject` produced by `NewAdd` / `NewRemove` /
`NewReplace` at path `"/" + key`. -/
inductive JSONPatchOperationObject where
  | add (key : String) (value : Json)
  | remove (key : String)
  | replace (key : String) (value : Json)

/-- `patch.ApplyWithOptions` for one operation at a top-level key of an
object document. -/
def applyPatchOp (opts : ApplyOptions) (doc : Json)
    (op : JSONPatchOperationObject) : Except String Json :=
  match doc with
  | .obj fields =>
    match op with
    | .add k v => .ok (.obj (setField fields k v))
    | .remove k =>
      if (lookupField fields k).isSome then .ok (.obj (removeField fields k))
      else if opts.allowMissingPathOnRemove then .ok (.obj fields)
      else .error "remove operation does not apply: doc is missing path"
    | .replace k v =>
      if (lookupField fields k).isSome then .ok (.obj (setField fields k v))
      else .error "replace operation does not apply: doc is missing path"
  | _ => .error "doc is not an object"

/-- `modifyBufferBodyAndParsed` (common.go lines 18-43): apply the patch
to the buffer's document, re-parse the patched bytes into the new field
mapping, and return both.  A nil `applyOpt` falls back to
`NewApplyOptions()`. -/
def modifyBufferBodyAndParsed (buffer : Json) (applyOpt : Option ApplyOptions)
    (patch : JSONPatchOperationObject) :
    Except String (Json × List (String × Json)) := do
  let patched ← applyPatchOp (applyOpt.getD newApplyOptions) buffer patch
  match patched with
  | .obj fields => .ok (patched, fields)
  | _ => .error "failed to unmarshal response body"

/-- The fields of `TextToSpeechRequest`
(text_to_speech_request.go lines 19-30) involved in parameter patching:
the derived `Model`, the parsed mapping and the body buffer. -/
structure TextToSpeechRequest where
  Model : String
  bodyParsed : List (String × Json)
  bodyBuffer : Json

/-- The trailing model-resync of `SetDefaultParams` and
`SetOverrideParams` (text_to_speech_request.go lines 112-117 and
133-137): if the patched body's `model` is a string differing from the
derived field, adopt it. -/
def updateModelFromParsed (r : TextToSpeechRequest) : TextToSpeechRequest :=
  match lookupField r.bodyParsed "model" with
  | some (.str m) => if r.Model ≠ m then { r with Model := m } else r
  | _ => r

/-- `TextToSpeechRequest.SetModel` (lines 85-96): `NewReplace("/model",
model)` through `modifyBufferBodyAndParsed`, then update the derived
field. -/
def SetModel (r : TextToSpeechRequest) (model : String) :
    Except String TextToSpeechRequest := do
  let (buf, parsed) ← modifyBufferBodyAndParsed r.bodyBuffer none
    (.replace "model" (.str model))
  .ok { r with bodyBuffer := buf, bodyParsed := parsed, Model := model }

/-- The `for k, v := range params` loop of `SetDefaultParams`
(lines 99-110): keys already present in `bodyParsed` are skipped, absent
keys are added via `NewAdd("/"+k, &v)` with default apply options. -/
def setDefaultParamsLoop (r : TextToSpeechRequest) :
    List (String × Json) → Except String TextToSpeechRequest
  | [] => .ok r
  | (k, v) :: rest =>
    if (lookupField r.bodyParsed k).isSome then setDefaultParamsLoop r rest
    else do
      let (buf, parsed) ← modifyBufferBodyAndParsed r.bodyBuffer none (.add k v)
      setDefaultParamsLoop { r with bodyBuffer := buf, bodyParsed := parsed } rest

/-- `TextToSpeechRequest.SetDefaultParams` (lines 98-118).  The Go map
`params` is modelled as a key/value list (one map enumeration). -/
def SetDefaultParams (r : TextToSpeechRequest) (params : List (String × Json)) :
    Except String TextToSpeechRequest := do
  let r' ← setDefaultParamsLoop r params
  .ok (updateModelFromParsed r')

/-- The apply options of `SetOverrideParams` (lines 121-122):
`EnsurePathExistsOnAdd` on. -/
def overrideApplyOptions : ApplyOptions :=
  { ensurePathExistsOnAdd := true, allowMissingPathOnRemove := false }

/-- The `for k, v := range params` loop of `SetOverrideParams`
(lines 124-131): every key is added (replacing any present member). -/
def setOverrideParamsLoop (r : TextToSpeechRequest) :
    List (String × Json) → Except String TextToSpeechRequest
  | [] => .ok r
  | (k, v) :: rest => do
    let (buf, parsed) ← modifyBufferBodyAndParsed r.bodyBuffer
      (some overrideApplyOptions) (.add k v)
    setOverrideParamsLoop { r with bodyBuffer := buf, bodyParsed := parsed } rest

/-- `TextToSpeechRequest.SetOverrideParams` (lines 120-139). -/
def SetOverrideParams (r : TextToSpeechRequest) (params : List (String × Json)) :
    Except String TextToSpeechRequest := do
  let r' ← setOverrideParamsLoop r params
  .ok (updateModelFromParsed r')

/-- The apply options of `RemoveParamKeys` (lines 142-143):
`AllowMissingPathOnRemove` on. -/
def removeApplyOptions : ApplyOptions :=
  { ensurePathExistsOnAdd := false, allowMissingPathOnRemove := true }

/-- `TextToSpeechRequest.RemoveParamKeys` (lines 141-155): remove each
listed key via `NewRemove("/"+v)`, missing paths allowed. -/
def RemoveParamKeys (r : TextToSpeechRequest) :
    List String → Except String TextToSpeechRequest
  | [] => .ok r
  | k :: rest => do
    let (buf, parsed) ← modifyBufferBodyAndParsed r.bodyBuffer
      (some removeApplyOptions) (.remove k)
    RemoveParamKeys { r with bodyBuffer := buf, bodyParsed := parsed } rest

/-- The buffer/parsed consistency invariant of the spec: the byte buffer
re-parses to the parsed mapping. -/
def Consistent (r : TextToSpeechRequest) : Prop :=
  r.bodyBuffer = Json.obj r.bodyParsed

end OpenAIReq

/-! ## Local rate limiter (src/pkg/filters/ratelimit/local.go)

Times are nanosecond timestamps (`UnixNano`), token counts fixed-point
integers (`tokens * precision`).  The float computations of the source
(`window.Seconds()`, `now.Sub(...).Seconds()`, truncated to int64) are
modelled with exact natural-number division; they agree on the
whole-second windows and the value ranges involved here.  A negative
elapsed time yields no refill in the source (a negative `tokensToAdd`)
exactly as truncated subtraction does here. -/

namespace Ratelimit

/-- The fixed-point `precision` constant of the `ratelimit` package's
const block ("Precision for fixed-point arithmetic"), declared alongside
`numShards`, `maxBucketsPerShard`, `maxTTL`, `ttlRate` and
`cleanupInterval`; the block sits in the source tree concatenated after
src/pkg/bootkit/bootkit_test.go (line 1051 of that file). -/
def precision : Nat := 1000

/-- Nanoseconds per second. -/
def nsPerSec : Nat := 1000000000

/-- The fields of `tokenBucket` (local.go lines 12-19) the consume path
reads and writes: the fixed-point token count and the last refill
timestamp.  `capacity` and `rate` are passed alongside, as
`checkBucketLocal` recomputes them from the policy on every call. -/
structure TokenBucket where
  tokens : Nat
  lastUpdate : Nat
deriving DecidableEq, Repr

/-- `newRate` of `checkBucketLocal` (local.go line 50):
`capacity / window-in-seconds`, truncated. -/
def newRate (capacity windowSec : Nat) : Nat :=
  capacity / windowSec

/-- The bucket `initBucket` creates (local.go lines 69-76): full tokens,
last update now. -/
def initBucket (capacity now : Nat) : TokenBucket :=
  { tokens := capacity, lastUpdate := now }

/-- `RateLimiter.tryConsume` (local.go lines 123-143): add
`(elapsed whole seconds) * rate` tokens — capped at the capacity and
advancing `lastUpdate` — when the amount is positive, then consume
`precision` tokens if at least that many are available. -/
def tryConsume (capacity rate : Nat) (b : TokenBucket) (now : Nat) :
    TokenBucket × Bool :=
  let tokensToAdd := ((now - b.lastUpdate) / nsPerSec) * rate
  let b1 := if 0 < tokensToAdd then
    { tokens := min (b.tokens + tokensToAdd) capacity, lastUpdate := now }
  else b
  if precision ≤ b1.tokens then
    ({ b1 with tokens := b1.tokens - precision }, true)
  else (b1, false)

/-- Successive `checkBucketLocal` calls on one key with a constant
policy: fold `tryConsume` over the request timestamps (the bucket is
neither expired nor evicted within a window, as the TTL is at least
5 minutes and at least twice the window), returning the final bucket and
the number of allowed requests. -/
def runBucket (capacity rate : Nat) (b : TokenBucket) :
    List Nat → TokenBucket × Nat
  | [] => (b, 0)
  | t :: ts =>
    let step := tryConsume capacity rate b t
    let rest := runBucket capacity rate step.1 ts
    (rest.1, (if step.2 then 1 else 0) + rest.2)

end Ratelimit

end Knoway

namespace Knoway

open Object

/-- C2 counterexample: the claim states that the missing_model error
carries HTTP status 400 and that the rate-limit error's code string is
"rate_limit_exceeded".  In the code `NewErrorMissingModel` carries
`http.StatusNotFound` (404) and the rate-limit code constant is
"model_rate_limit_exceeded", so the claim is false at these two concrete
constructors. -/
theorem C2_counterexample :
    NewErrorMissingModel.status = 404 ∧ NewErrorMissingModel.status ≠ 400 ∧
    LLMErrorCode.codeString .rateLimitExceeded = "model_rate_limit_exceeded" ∧
    LLMErrorCode.codeString .rateLimitExceeded ≠ "rate_limit_exceeded" := by
  refine ⟨rfl, by decide, rfl, by decide⟩

/-- C2 (amended): every error constructor of the taxonomy carries exactly
the HTTP status and code of the source: missing_model 404 (not 400),
rate-limit 429 with code string "model_rate_limit_exceeded",
missing/incorrect api_key 401, insufficient_quota 402,
model_access_denied 403, model_not_found 404, internal_error 500,
bad_gateway 502, service_unavailable 503. -/
theorem C2_error_taxonomy_statuses :
    (∀ m, (NewErrorModelNotFoundOrNotAccessible m).status = 404 ∧
      (NewErrorModelNotFoundOrNotAccessible m).code = some .modelNotFoundOrNotAccessible) ∧
    (∀ m, (NewErrorModelAccessDenied m).status = 403 ∧
      (NewErrorModelAccessDenied m).code = some .modelAccessDenied) ∧
    NewErrorRateLimitExceeded.status = 429 ∧
    NewErrorRateLimitExceeded.code = some .rateLimitExceeded ∧
    (NewErrorRateLimitExceeded.code.map LLMErrorCode.codeString =
      some "model_rate_limit_exceeded") ∧
    NewErrorInsufficientQuota.status = 402 ∧
    NewErrorInsufficientQuota.code = some .insufficientQuota ∧
    NewErrorMissingAPIKey.status = 401 ∧
    NewErrorMissingAPIKey.code = some .missingAPIKey ∧
    (∀ k, (NewErrorIncorrectAPIKey k).status = 401 ∧
      (NewErrorIncorrectAPIKey k).code = some .incorrectAPIKey) ∧
    NewErrorMissingModel.status = 404 ∧
    NewErrorMissingModel.code = some .missingModel ∧
    (∀ es, (NewErrorInternalError es).status = 500 ∧
      (NewErrorInternalError es).code = some .internalError) ∧
    (∀ e, (NewErrorBadGateway e).status = 502 ∧
      (NewErrorBadGateway e).code = some .badGateway) ∧
    NewErrorServiceUnavailable.status = 503 ∧
    NewErrorServiceUnavailable.code = some .serviceUnavailable := by
  refine ⟨fun _ => ⟨rfl, rfl⟩, fun _ => ⟨rfl, rfl⟩, rfl, rfl, rfl, rfl, rfl, rfl, rfl,
    fun _ => ⟨rfl, rfl⟩, rfl, rfl, fun _ => ⟨rfl, rfl⟩, fun _ => ⟨rfl, rfl⟩, rfl, rfl⟩

section C4

open RouteV1alpha1 Route Examples

/-- C4 counterexample: the claim says `Match` returns true iff some match
entry's `model.exact` (or `prefix`) binds to the request's model.  For a
route whose only entry is the prefix match `gpt-` and request model
`gpt-4`, the prefix binds (and the target list is non-empty), yet
`routeDefault.Match` returns false: the code only ever consults
`GetExact()` and skips every non-exact entry. -/
theorem C4_counterexample :
    (∃ m ∈ prefixOnlyRoute.matchList, ∃ sm, m.model = some sm ∧
      specModelBinds sm "gpt-4" = true) ∧
    prefixOnlyRoute.targets ≠ [] ∧
    routeMatch prefixOnlyRoute "gpt-4" = false := by
  refine ⟨⟨{ model := some (.prefix_ "gpt-") }, by simp [prefixOnlyRoute], .prefix_ "gpt-",
    rfl, rfl⟩, by simp [prefixOnlyRoute], rfl⟩

/-- C4 (amended): `routeDefault.Match` returns true iff some match
entry's `model.exact` equals the request's model with a non-empty exact
string — prefix matches are never considered — and additionally the
route's target list is non-empty, so a route with no targets is always
rejected. -/
theorem C4_match_iff (cfg : RouteV1alpha1.Route) (requestModel : String) :
    routeMatch cfg requestModel = true ↔
      ((∃ m ∈ cfg.matchList, ∃ s, m.model = some (.exact s) ∧ s ≠ "" ∧ requestModel = s) ∧
        cfg.targets ≠ []) := by
  have hgo : ∀ ms : List MatchEntry, routeMatch.go cfg ms requestModel = true ↔
      ((∃ m ∈ ms, ∃ s, m.model = some (.exact s) ∧ s ≠ "" ∧ requestModel = s) ∧
        cfg.targets ≠ []) := by
    intro ms
    induction ms with
    | nil => simp [routeMatch.go]
    | cons m rest ih =>
      by_cases hx : getExact m.model = ""
      · rw [routeMatch.go, if_pos hx, ih]
        constructor
        · rintro ⟨⟨m', hm', s, hs, hne, hreq⟩, ht⟩
          exact ⟨⟨m', List.mem_cons_of_mem _ hm', s, hs, hne, hreq⟩, ht⟩
        · rintro ⟨⟨m', hm', s, hs, hne, hreq⟩, ht⟩
          rcases List.mem_cons.mp hm' with hEq | hmem
          · subst hEq
            rw [hs] at hx
            simp [getExact] at hx
            exact absurd hx hne
          · exact ⟨⟨m', hmem, s, hs, hne, hreq⟩, ht⟩
      · rw [routeMatch.go, if_neg hx]
        by_cases hr : requestModel = getExact m.model
        · rw [if_neg (by simpa using hr)]
          by_cases htg : cfg.targets.isEmpty
          · rw [if_pos htg, ih]
            constructor
            · rintro ⟨_, ht⟩
              exact absurd (List.isEmpty_iff.mp htg) ht
            · rintro ⟨_, ht⟩
              exact absurd (List.isEmpty_iff.mp htg) ht
          · rw [if_neg htg]
            have ht : cfg.targets ≠ [] := fun h => htg (by simp [h])
            simp only [true_iff]
            refine ⟨⟨m, List.mem_cons_self _ _, getExact m.model, ?_, hx, hr⟩, ht⟩
            cases hmm : m.model with
            | none => rw [hmm] at hx; simp [getExact] at hx
            | some sm =>
              cases sm with
              | exact s => simp [getExact]
              | prefix_ p => rw [hmm] at hx; simp [getExact] at hx
        · rw [if_pos (by simpa using hr), ih]
          constructor
          · rintro ⟨⟨m', hm', s, hs, hne, hreq⟩, ht⟩
            exact ⟨⟨m', List.mem_cons_of_mem _ hm', s, hs, hne, hreq⟩, ht⟩
          · rintro ⟨⟨m', hm', s, hs, hne, hreq⟩, ht⟩
            rcases List.mem_cons.mp hm' with hEq | hmem
            · subst hEq
              rw [hs] at hr
              simp [getExact] at hr
              exact absurd hreq hr
            · exact ⟨⟨m', hmem, s, hs, hne, hreq⟩, ht⟩
  by_cases hempty : cfg.matchList.isEmpty
  · rw [routeMatch, if_pos hempty]
    have : cfg.matchList = [] := List.isEmpty_iff.mp hempty
    simp [this]
  · rw [routeMatch, if_neg hempty]
    exact hgo cfg.matchList

end C4

section C1

open RouteV1alpha1 Route

/-- C1: the claim states the retry loop always terminates, stopping once
the retry count reaches `max_retries` with a default of 3 when unset.  In
the code the entire stop-and-count logic sits inside
`if m.cfg.GetFallback().MaxRetries != nil`, so when `fallback` is
configured but its `MaxRetries` pointer is unset the loop body falls
through and iterates again forever without ever returning: on the failing
input (fallback configured with `max_retries` unset, cluster call failing
on every attempt) `handleRequestLoop` exhausts any amount of fuel
(first conjunct).  The remaining conjuncts record the behaviour the claim
correctly describes: with no fallback the first error is returned with no
retry, any nil or skip-stream outcome returns at once, and with
`MaxRetries` set the loop stops after `max_retries` retries, value 0
falling back to the default 3 (so 4 total attempts). -/
theorem C1_fallback_loop :
    (∀ fuel attempt retriedCount,
      handleRequestLoop (some { preDelay := none, postDelay := none, maxRetries := none })
        (fun _ => .err) fuel attempt retriedCount = none) ∧
    (∀ fuel call, handleRequestLoop none call (fuel + 1) 0 0 = some (0, call 0)) ∧
    (∀ fuel fb attempt retriedCount,
      handleRequestLoop fb (fun _ => .ok) (fuel + 1) attempt retriedCount
        = some (attempt, .ok)) ∧
    (∀ fuel fb attempt retriedCount,
      handleRequestLoop fb (fun _ => .skipStream) (fuel + 1) attempt retriedCount
        = some (attempt, .skipStream)) ∧
    handleRequestLoop (some { preDelay := none, postDelay := none, maxRetries := some 0 })
      (fun _ => .err) 10 0 0 = some (3, .err) ∧
    handleRequestLoop (some { preDelay := none, postDelay := none, maxRetries := some 2 })
      (fun _ => .err) 10 0 0 = some (2, .err) := by
  refine ⟨?_, ?_, ?_, ?_, rfl, rfl⟩
  · intro fuel
    induction fuel with
    | zero => intro attempt retriedCount; rfl
    | succ n ih => intro attempt retriedCount; exact ih (attempt + 1) retriedCount
  · intro fuel call
    cases h : call 0 <;> simp [handleRequestLoop, h]
  · intro fuel fb attempt retriedCount
    simp [handleRequestLoop]
  · intro fuel fb attempt retriedCount
    simp [handleRequestLoop]

end C1

section C5

open RouteV1alpha1 Route Manager Examples

/-- C5 counterexample: the claim says `MatchRoute` scans the effective
route list in registration-deterministic order.  `mergeRoutes` builds the
list with `lo.Values` over a Go map, whose iteration order is
unspecified: for the same registries (match-routes "a" and "b", both
matching model "m"; no base-routes) both `[routeA, routeB]` and
`[routeB, routeA]` are possible merge results, and the scan returns
`routeA` under the first and `routeB` under the second, so the scanned
order — and the result of `MatchRoute` — is not a function of the
registration history. -/
theorem C5_counterexample :
    IsMergeEnumeration exMatchReg exBaseReg ["a", "b"] [routeA, routeB] ∧
    IsMergeEnumeration exMatchReg exBaseReg ["b", "a"] [routeB, routeA] ∧
    matchRouteScan [routeA, routeB] "m" = some routeA ∧
    matchRouteScan [routeB, routeA] "m" = some routeB ∧
    routeA ≠ routeB := by
  refine ⟨⟨by decide, ?_, rfl⟩, ⟨by decide, ?_, rfl⟩, rfl, rfl, by decide⟩ <;>
  · intro k
    by_cases ha : k = "a"
    · subst ha; simp [uniqueRoutes, exMatchReg]
    · by_cases hb : k = "b"
      · subst hb; simp [uniqueRoutes, exMatchReg]
      · simp [uniqueRoutes, exMatchReg, exBaseReg, ha, hb]

/-- C5 (amended): for every possible merged route list (any Go-map
enumeration of the union of the two registries, match-routes winning over
base-routes on name collision), `MatchRoute` returns the first route of
that list — in the list's own, unspecified, order — whose match accepts
the request: a returned route accepts the request, every route before it
in the scanned list rejects it, and the route is an entry of the union
map; `MatchRoute` returns nil iff no route of the merged list accepts the
request.  The scan order is map-iteration order, not
registration-deterministic as the claim stated. -/
theorem C5_matchroute_first_of_enumeration
    (mr br : String → Option RouteV1alpha1.Route) (keys : List String)
    (out : List RouteV1alpha1.Route) (requestModel : String)
    (h : IsMergeEnumeration mr br keys out) :
    (∀ r, matchRouteScan out requestModel = some r →
      routeMatch r requestModel = true ∧
      (∃ pre post, out = pre ++ r :: post ∧
        ∀ r' ∈ pre, routeMatch r' requestModel = false) ∧
      (∃ k, uniqueRoutes mr br k = some r)) ∧
    (matchRouteScan out requestModel = none ↔
      ∀ r ∈ out, routeMatch r requestModel = false) := by
  obtain ⟨-, -, hout⟩ := h
  have hfirst : ∀ l : List RouteV1alpha1.Route, ∀ r,
      matchRouteScan l requestModel = some r →
      routeMatch r requestModel = true ∧
      (∃ pre post, l = pre ++ r :: post ∧
        ∀ r' ∈ pre, routeMatch r' requestModel = false) ∧ r ∈ l := by
    intro l
    induction l with
    | nil => intro r hr; simp [matchRouteScan] at hr
    | cons x rest ih =>
      intro r hr
      rw [matchRouteScan] at hr
      by_cases hx : routeMatch x requestModel = true
      · rw [if_pos hx] at hr
        obtain rfl : x = r := by injection hr
        exact ⟨hx, ⟨[], rest, rfl, by simp⟩, List.mem_cons_self _ _⟩
      · rw [if_neg hx] at hr
        obtain ⟨h1, ⟨pre, post, hsplit, hpre⟩, hmem⟩ := ih r hr
        refine ⟨h1, ⟨x :: pre, post, by rw [hsplit]; rfl, ?_⟩,
          List.mem_cons_of_mem _ hmem⟩
        intro r' hr'
        rcases List.mem_cons.mp hr' with hEq | hmem'
        · subst hEq; exact Bool.eq_false_iff.mpr hx
        · exact hpre r' hmem'
  have hnone : ∀ l : List RouteV1alpha1.Route,
      matchRouteScan l requestModel = none ↔
      ∀ r ∈ l, routeMatch r requestModel = false := by
    intro l
    induction l with
    | nil => simp [matchRouteScan]
    | cons x rest ih =>
      rw [matchRouteScan]
      by_cases hx : routeMatch x requestModel = true
      · simp [hx]
      · rw [if_neg hx, ih]
        simp only [List.mem_cons]
        constructor
        · intro hall r hr
          rcases hr with hEq | hmem
          · subst hEq; exact Bool.eq_false_iff.mpr hx
          · exact hall r hmem
        · intro hall r hr
          exact hall r (Or.inr hr)
  refine ⟨fun r hr => ?_, hnone out⟩
  obtain ⟨h1, h2, hmem⟩ := hfirst out r hr
  refine ⟨h1, h2, ?_⟩
  rw [hout] at hmem
  obtain ⟨k, -, hk⟩ := List.mem_filterMap.mp hmem
  exact ⟨k, hk⟩

/-- C5 witness: `C5_matchroute_first_of_enumeration` applied to the
concrete registries `exMatchReg`/`exBaseReg`, the enumeration
`["a", "b"]` and merged list `[routeA, routeB]`, evaluated at request
model "m". -/
theorem C5_matchroute_witness :
    routeMatch routeA "m" = true ∧
    (∃ pre post, [routeA, routeB] = pre ++ routeA :: post ∧
      ∀ r' ∈ pre, routeMatch r' "m" = false) ∧
    (∃ k, uniqueRoutes exMatchReg exBaseReg k = some routeA) := by
  have henum : IsMergeEnumeration exMatchReg exBaseReg ["a", "b"] [routeA, routeB] := by
    refine ⟨by decide, ?_, rfl⟩
    intro k
    by_cases ha : k = "a"
    · subst ha; simp [uniqueRoutes, exMatchReg]
    · by_cases hb : k = "b"
      · subst hb; simp [uniqueRoutes, exMatchReg]
      · simp [uniqueRoutes, exMatchReg, exBaseReg, ha, hb]
  exact (C5_matchroute_first_of_enumeration exMatchReg exBaseReg ["a", "b"]
    [routeA, routeB] "m" henum).1 routeA rfl

end C5

section C6

open Loadbalance

/-- C6: the claim says `Done` decrements the in-flight counter of the
current target, saturating at zero.  The code's `Desc` executes
`m.count.And(-1)` — a bitwise AND with all ones, which leaves the counter
unchanged — instead of `Add(-1)`: at the failing input (counter 1, one
`Done` call) the counter stays 1 where the claim requires 0, and in
general `Desc` is the identity, so the counter never decreases. -/
theorem C6_desc_never_decrements :
    memoryRequestCounterDesc 1 = 1 ∧
    memoryRequestCounterDesc 1 ≠ 0 ∧
    (∀ c : Int, memoryRequestCounterDesc c = c) := by
  have hland : ∀ c : Int, Int.land c (-1) = c := by
    intro c
    have h : (-1 : Int) = Int.negSucc 0 := rfl
    rw [h]
    cases c with
    | ofNat m =>
      show (Int.ofNat (Nat.ldiff m 0)) = Int.ofNat m
      congr 1
      apply Nat.eq_of_testBit_eq
      intro i
      rw [Nat.testBit_ldiff]
      simp
    | negSucc m =>
      show Int.negSucc (m ||| 0) = Int.negSucc m
      rw [Nat.or_zero]
  have hid : ∀ c : Int, memoryRequestCounterDesc c = c := by
    intro c
    rw [memoryRequestCounterDesc]
    split
    · exact hland c
    · rfl
  exact ⟨hid 1, by rw [hid 1]; decide, hid⟩

end C6

section C7

open Loadbalance

/-- The accumulated total after `i` loop iterations is the range-sum of
the visited rotated weights. -/
theorem cumul_eq_sum (servers : List Server) (current : Nat) (i : Nat) :
    cumul servers current i =
      ∑ j ∈ Finset.range i,
        (servers.getD ((current + j) % servers.length) default).weight := by
  induction i with
  | zero => simp [cumul]
  | succ n ih => rw [cumul, ih, Finset.sum_range_succ]

/-- Summing a list's entries by index equals the list sum. -/
theorem sum_range_getD (l : List Server) :
    ∑ j ∈ Finset.range l.length, (l.getD j default).weight =
      (l.map (·.weight)).sum := by
  induction l with
  | nil => simp
  | cons x t ih =>
    rw [List.length_cons, Finset.sum_range_succ']
    simp only [List.getD_cons_succ, List.getD_cons_zero, List.map_cons, List.sum_cons, ih]
    ring

/-- One full cycle of the rotated scan accumulates the total weight,
whatever the starting index: the rotation `j ↦ (current + j) % N` permutes
the indices. -/
theorem cumul_full_cycle (servers : List Server) (current : Nat)
    (hN : 0 < servers.length) :
    cumul servers current servers.length = calculateTotalWeight servers := by
  set N := servers.length with hNdef
  rw [cumul_eq_sum, calculateTotalWeight, ← sum_range_getD, ← hNdef]
  rw [← Fin.sum_univ_eq_sum_range (fun j => (servers.getD ((current + j) % N) default).weight) N,
    ← Fin.sum_univ_eq_sum_range (fun j => (servers.getD j default).weight) N]
  haveI : NeZero N := ⟨by omega⟩
  let c : Fin N := ⟨current % N, Nat.mod_lt _ hN⟩
  have := Equiv.sum_comp (Equiv.addLeft c)
    (fun j : Fin N => (servers.getD j.val default).weight)
  rw [← this]
  apply Finset.sum_congr rfl
  intro j _
  congr 2
  show (current + j.val) % N = ((c + j : Fin N)).val
  rw [Fin.add_def]
  show (current + j.val) % N = (current % N + j.val) % N
  exact (Nat.mod_add_mod current N j.val).symm

/-- The scan loop returns the first rotated index whose cumulative total
exceeds the draw: if `i₀` is minimal with `r < cumul (i₀ + 1)` and lies
within the remaining iterations, the scan starting at step `i` with the
accumulated total `cumul i` finds `(current + i₀) % N`. -/
theorem wrrScanGo_finds (servers : List Server) (current : Nat) (r : Int)
    (i₀ : Nat) (hmin : ∀ j < i₀, ¬ r < cumul servers current (j + 1))
    (hhit : r < cumul servers current (i₀ + 1)) :
    ∀ k i, i ≤ i₀ → i₀ < i + k →
      wrrScanGo servers current r k i (cumul servers current i) =
        some ((current + i₀) % servers.length) := by
  intro k
  induction k with
  | zero => intro i hle hlt; omega
  | succ n ih =>
    intro i hle hlt
    rw [wrrScanGo]
    have htot : cumul servers current i +
        (servers.getD ((current + i) % servers.length) default).weight =
        cumul servers current (i + 1) := by
      rw [cumul]
    rcases Nat.eq_or_lt_of_le hle with hEq | hlt'
    · subst hEq
      rw [htot, if_pos hhit]
    · rw [htot, if_neg (hmin i hlt')]
      exact ih (i + 1) hlt' (by omega)

/-- C7: `WeightedRoundRobin.Next` returns the empty string when the
target list is empty or the random draw fails, the sole target's name
when there is exactly one target, and otherwise, for a draw `r` in
`[0, total weight)`, returns the name of the first target — iterating
from the rolling `current` index and accumulating weights — whose
cumulative weight exceeds `r`, and advances the stored index to the found
index plus one, modulo N. -/
theorem C7_weighted_round_robin_next (servers : List Server) (current : Nat)
    (r : Int) :
    (∀ draw cur, wrrNext [] cur draw = ("", cur)) ∧
    (∀ s draw cur, wrrNext [s] cur draw = (s.name, cur)) ∧
    (2 ≤ servers.length → wrrNext servers current none = ("", current)) ∧
    (2 ≤ servers.length → 0 ≤ r → r < calculateTotalWeight servers →
      ∃ i₀ < servers.length,
        r < cumul servers current (i₀ + 1) ∧
        (∀ j < i₀, ¬ r < cumul servers current (j + 1)) ∧
        wrrNext servers current (some r) =
          ((servers.getD ((current + i₀) % servers.length) default).name,
            ((current + i₀) % servers.length + 1) % servers.length)) := by
  refine ⟨fun draw cur => rfl, fun s draw cur => rfl, ?_, ?_⟩
  · intro h2
    rw [wrrNext, if_neg (by omega), if_neg (by omega)]
  · intro h2 hr0 hrlt
    have hN : 0 < servers.length := by omega
    have hex : ∃ j, r < cumul servers current (j + 1) := by
      refine ⟨servers.length - 1, ?_⟩
      have : servers.length - 1 + 1 = servers.length := by omega
      rw [this, cumul_full_cycle servers current hN]
      exact hrlt
    classical
    let i₀ := Nat.find hex
    have hhit : r < cumul servers current (i₀ + 1) := Nat.find_spec hex
    have hmin : ∀ j < i₀, ¬ r < cumul servers current (j + 1) :=
      fun j hj => Nat.find_min hex hj
    have hi₀lt : i₀ < servers.length := by
      by_contra hge
      push_neg at hge
      have := hmin (servers.length - 1) (by omega)
      apply this
      have : servers.length - 1 + 1 = servers.length := by omega
      rw [this, cumul_full_cycle servers current hN]
      exact hrlt
    refine ⟨i₀, hi₀lt, hhit, hmin, ?_⟩
    have hscan : wrrScanGo servers current r servers.length 0 0 =
        some ((current + i₀) % servers.length) := by
      have h0 : cumul servers current 0 = 0 := rfl
      rw [← h0]
      exact wrrScanGo_finds servers current r i₀ hmin hhit servers.length 0
        (Nat.zero_le _) (by omega)
    rw [wrrNext, if_neg (by omega), if_neg (by omega)]
    simp only [hscan, Option.getD_some]

/-- C7 witness: the fourth conjunct of `C7_weighted_round_robin_next` at
servers `[("a", 1), ("b", 2)]`, current index 1, draw 2: the scan starts
at index 1 (weight 2, cumulative 2), does not exceed 2, continues to
index 0 (cumulative 3 > 2), so "a" is selected and `current` becomes 1. -/
theorem C7_weighted_round_robin_next_witness :
    ∃ i₀ < 2,
      (2 : Int) < cumul [⟨"a", 1⟩, ⟨"b", 2⟩] 1 (i₀ + 1) ∧
      (∀ j < i₀, ¬ (2 : Int) < cumul [⟨"a", 1⟩, ⟨"b", 2⟩] 1 (j + 1)) ∧
      wrrNext [⟨"a", 1⟩, ⟨"b", 2⟩] 1 (some 2) =
        (([⟨"a", 1⟩, ⟨"b", 2⟩] : List Server).getD ((1 + i₀) % 2) default |>.name,
          ((1 + i₀) % 2 + 1) % 2) :=
  (C7_weighted_round_robin_next [⟨"a", 1⟩, ⟨"b", 2⟩] 1 2).2.2.2
    (by decide) (by decide) (by decide)

end C7

section C10

open Auth

/-- C10: with an empty allow-models list the key is granted for every
model, so `CanAccessModel` permits access iff no deny rule glob-matches
the model (a pattern error counts as no match); a key with both lists
empty can access every model; and a matching deny rule forces denial
whatever the allow list contains. -/
theorem C10_can_access_model (globMatch : String → String → Option Bool)
    (requestModel : String) :
    (∀ denyModels,
      CanAccessModel globMatch requestModel [] denyModels = true ↔
        ¬ ∃ rule ∈ denyModels, globMatch rule requestModel = some true) ∧
    CanAccessModel globMatch requestModel [] [] = true ∧
    (∀ allowModels denyModels,
      IsDenied globMatch requestModel denyModels = true →
        CanAccessModel globMatch requestModel allowModels denyModels = false) := by
  have hden : ∀ denyModels, IsDenied globMatch requestModel denyModels = true ↔
      ∃ rule ∈ denyModels, globMatch rule requestModel = some true := by
    intro denyModels
    rw [IsDenied]
    by_cases hE : denyModels.isEmpty
    · rw [if_pos hE]
      have : denyModels = [] := by
        cases denyModels with
        | nil => rfl
        | cons x t => simp [List.isEmpty] at hE
      subst this
      simp
    · rw [if_neg hE, List.any_eq_true]
      constructor
      · rintro ⟨rule, hmem, hget⟩
        refine ⟨rule, hmem, ?_⟩
        cases h : globMatch rule requestModel with
        | none => rw [h] at hget; simp at hget
        | some b => rw [h] at hget; simp at hget; rw [hget]
      · rintro ⟨rule, hmem, hmatch⟩
        exact ⟨rule, hmem, by rw [hmatch]; rfl⟩
  refine ⟨?_, rfl, ?_⟩
  · intro denyModels
    have hacc : CanAccessModel globMatch requestModel [] denyModels =
        !(IsDenied globMatch requestModel denyModels) := by
      rw [CanAccessModel, CanAccessModelFromValues]
      have hg : IsGranted globMatch requestModel [] = true := rfl
      rw [hg, Bool.and_true]
    rw [hacc, ← hden denyModels]
    cases IsDenied globMatch requestModel denyModels <;> simp
  · intro allowModels denyModels hd
    rw [CanAccessModel, CanAccessModelFromValues, hd]
    rfl

/-- C10 witness: `C10_can_access_model` applied to the equality matcher,
model "m", discharging the deny hypothesis with the deny list
`["m"]`. -/
theorem C10_can_access_model_witness :
    CanAccessModel (fun p s => some (p = s)) "m" ["other"] ["m"] = false :=
  (C10_can_access_model (fun p s => some (p = s)) "m").2.2 ["other"] ["m"] rfl

end C10

section C3

open OpenAIStream

/-- C3 counterexample: the claim's "at most one usage chunk" and "first
is true for exactly one chunk" fail on `NextChunk` as implemented.  An
upstream stream of two data lines, each a well-formed payload containing
`"completion_tokens":`, yields two usage chunks (nothing guards against a
second); and a stream of one data line followed by a heartbeat line
yields two first-flagged chunks, because an empty chunk created while
`chunkNum` is still 1 also records `IsFirst()`. -/
theorem C3_counterexample :
    countUsage (runStream (fun _ => true) (fun _ => true) initStreamState
      [some "data: \x7b\"model\":\"m\",\"usage\":\x7b\"prompt_tokens\":1,\"completion_tokens\":1,\"total_tokens\":2\x7d\x7d",
       some "data: \x7b\"model\":\"m\",\"usage\":\x7b\"prompt_tokens\":2,\"completion_tokens\":2,\"total_tokens\":4\x7d\x7d"]).1
      = 2 ∧
    countFirst (runStream (fun _ => true) (fun _ => true) initStreamState
      [some "data: \x7b\"model\":\"m\",\"choices\":[]\x7d", some ""]).1 = 2 := by
  exact ⟨rfl, rfl⟩

/-- C3 (amended): for every state and read line, when `NextChunk` returns
a chunk at all, a done chunk is returned together with `io.EOF` and the
stream's done flag set — this part of the claim holds — while the first
flag satisfies: the chunk has `first = true` iff the stream's chunk
counter is 1 after the call and the chunk is not the done sentinel.
Consequently the first data chunk is flagged first, but empty chunks
produced before a second data line are flagged first as well, a done
chunk never is, and nothing bounds the number of usage chunks (each data
line containing `"completion_tokens":` yields one), as the
counterexample shows. -/
theorem C3_next_chunk_invariants (chunkOk usageOk : String → Bool)
    (s : StreamState) (line : Option String) (ch : Chunk)
    (h : (NextChunk chunkOk usageOk s line).2.1 = some ch) :
    (ch.isDone = true →
      (NextChunk chunkOk usageOk s line).2.2 = .eof ∧
      (NextChunk chunkOk usageOk s line).1.isDone = true) ∧
    (ch.isFirst = true ↔
      ((NextChunk chunkOk usageOk s line).1.chunkNum = 1 ∧ ch.isDone = false)) := by
  cases line with
  | none =>
    simp only [NextChunk, Option.some.injEq] at h
    subst h
    simp [NewEmptyChatCompletionStreamChunk, NextChunk, streamIsFirst]
  | some l =>
    by_cases hep : s.hasErrorPrefix = true
    · simp only [NextChunk, if_pos hep, Option.some.injEq] at h
      subst h
      simp [NewEmptyChatCompletionStreamChunk, NextChunk, hep, streamIsFirst]
    · simp only [NextChunk, if_neg hep] at h ⊢
      split_ifs at h ⊢ with h1 h2 h3 h4 h5 <;>
        simp only [Option.some.injEq] at h <;>
        (subst h
         simp [NewEmptyChatCompletionStreamChunk, NewDoneChatCompletionStreamChunk,
           NewUsageChatCompletionStreamChunk, NewChatCompletionStreamChunk,
           streamIsFirst])

/-- C3 witness: `C3_next_chunk_invariants` applied to the fresh stream
state and a concrete first data line, whose chunk is returned as
first-flagged. -/
theorem C3_next_chunk_invariants_witness :
    ((NextChunk (fun _ => true) (fun _ => true) initStreamState
        (some "data: \x7b\"model\":\"m\",\"choices\":[]\x7d")).2.1
      = some (NewChatCompletionStreamChunk
          { chunkNum := 1, isDone := false, hasErrorPrefix := false })) ∧
    ((NewChatCompletionStreamChunk
        { chunkNum := 1, isDone := false, hasErrorPrefix := false }).isFirst = true ↔
      ((NextChunk (fun _ => true) (fun _ => true) initStreamState
          (some "data: \x7b\"model\":\"m\",\"choices\":[]\x7d")).1.chunkNum = 1 ∧
        (NewChatCompletionStreamChunk
          { chunkNum := 1, isDone := false, hasErrorPrefix := false }).isDone = false)) :=
  ⟨rfl, (C3_next_chunk_invariants (fun _ => true) (fun _ => true) initStreamState
    (some "data: \x7b\"model\":\"m\",\"choices\":[]\x7d")
    (NewChatCompletionStreamChunk
      { chunkNum := 1, isDone := false, hasErrorPrefix := false }) rfl).2⟩

end C3

section C8

open OpenAIReq

/-- Lookup after an RFC 6902 object `add`: the added key reads back the
new value, other keys are untouched. -/
theorem lookupField_setField (l : List (String × Json)) (k : String) (v : Json)
    (q : String) :
    lookupField (setField l k v) q = if k = q then some v else lookupField l q := by
  induction l with
  | nil => simp [setField, lookupField]
  | cons hd tl ih =>
    obtain ⟨k', v'⟩ := hd
    by_cases hk : k' = k
    · subst hk
      by_cases hq : k' = q <;> simp [setField, lookupField, hq]
    · by_cases hq : k' = q
      · have hkq : ¬ k = q := fun h => hk (by rw [hq, h])
        have hqk : ¬ q = k := fun h => hkq h.symm
        subst hq
        simp [setField, hqk, hkq, lookupField]
      · simp [setField, hk, lookupField, hq, ih]

/-- The trailing model-resync touches only the derived `Model` field. -/
theorem updateModelFromParsed_body (r : TextToSpeechRequest) :
    (updateModelFromParsed r).bodyParsed = r.bodyParsed ∧
    (updateModelFromParsed r).bodyBuffer = r.bodyBuffer := by
  rw [updateModelFromParsed]
  split
  · split <;> exact ⟨rfl, rfl⟩
  · exact ⟨rfl, rfl⟩

/-- `modifyBufferBodyAndParsed` with an `add` patch on a consistent
buffer: always succeeds with the key set, and the returned pair is
consistent by construction. -/
theorem modify_add (fields : List (String × Json)) (opt : Option ApplyOptions)
    (k : String) (v : Json) :
    modifyBufferBodyAndParsed (.obj fields) opt (.add k v) =
      .ok (.obj (setField fields k v), setField fields k v) := rfl

/-- `modifyBufferBodyAndParsed` with a `remove` patch under
`AllowMissingPathOnRemove` on a consistent buffer: removes the key when
present and is the identity otherwise. -/
theorem modify_remove (fields : List (String × Json)) (k : String) :
    modifyBufferBodyAndParsed (.obj fields) (some removeApplyOptions) (.remove k) =
      .ok (if (lookupField fields k).isSome then
        (.obj (removeField fields k), removeField fields k)
      else (.obj fields, fields)) := by
  rw [modifyBufferBodyAndParsed]
  by_cases hk : (lookupField fields k).isSome
  · rw [if_pos hk]
    show (applyPatchOp removeApplyOptions (.obj fields) (.remove k)).bind _ = _
    rw [applyPatchOp, if_pos hk]
    rfl
  · rw [if_neg hk]
    show (applyPatchOp removeApplyOptions (.obj fields) (.remove k)).bind _ = _
    rw [applyPatchOp, if_neg hk, if_pos (by rfl)]
    rfl

/-- The `SetDefaultParams` loop: succeeds on a consistent request,
preserves consistency and the derived model, never overwrites an existing
binding, leaves keys outside the parameter list untouched, and (for
duplicate-free parameter keys) binds every absent parameter key to its
value. -/
theorem setDefaultParamsLoop_spec (ps : List (String × Json)) :
    ∀ r : TextToSpeechRequest, Consistent r →
    ∃ r', setDefaultParamsLoop r ps = .ok r' ∧ Consistent r' ∧
      r'.Model = r.Model ∧
      (∀ q v, lookupField r.bodyParsed q = some v →
        lookupField r'.bodyParsed q = some v) ∧
      (∀ q, q ∉ ps.map Prod.fst →
        lookupField r'.bodyParsed q = lookupField r.bodyParsed q) ∧
      ((ps.map Prod.fst).Nodup → ∀ kv ∈ ps, lookupField r.bodyParsed kv.1 = none →
        lookupField r'.bodyParsed kv.1 = some kv.2) := by
  induction ps with
  | nil =>
    intro r hc
    exact ⟨r, rfl, hc, rfl, fun q v h => h, fun q _ => rfl, fun _ kv h => by simp at h⟩
  | cons kv rest ih =>
    obtain ⟨k, v⟩ := kv
    intro r hc
    by_cases hk : (lookupField r.bodyParsed k).isSome
    · obtain ⟨r', hok, hc', hm, hpres, hout, hadd⟩ := ih r hc
      refine ⟨r', ?_, hc', hm, hpres, ?_, ?_⟩
      · rw [setDefaultParamsLoop, if_pos hk]; exact hok
      · intro q hq
        exact hout q (fun hmem => hq (by simp [hmem]))
      · intro hnd kv' hmem hnone
        rcases List.mem_cons.mp hmem with hEq | hmem'
        · subst hEq
          rw [hnone] at hk
          simp at hk
        · exact hadd (by simpa using (List.nodup_cons.mp (by simpa using hnd)).2)
            kv' hmem' hnone
    · have hnone : lookupField r.bodyParsed k = none :=
        Option.not_isSome_iff_eq_none.mp hk
      have hbuf : r.bodyBuffer = Json.obj r.bodyParsed := hc
      set r₁ : TextToSpeechRequest :=
        { r with bodyBuffer := Json.obj (setField r.bodyParsed k v),
                 bodyParsed := setField r.bodyParsed k v } with hr₁
      have hc₁ : Consistent r₁ := rfl
      obtain ⟨r', hok, hc', hm, hpres, hout, hadd⟩ := ih r₁ hc₁
      have hstep : setDefaultParamsLoop r ((k, v) :: rest) =
          setDefaultParamsLoop r₁ rest := by
        rw [setDefaultParamsLoop, if_neg hk, hbuf, modify_add]
        rfl
      refine ⟨r', by rw [hstep]; exact hok, hc', by rw [hm], ?_, ?_, ?_⟩
      · intro q v₀ hv₀
        apply hpres
        show lookupField (setField r.bodyParsed k v) q = some v₀
        rw [lookupField_setField]
        have : ¬ k = q := fun h => by rw [h, hv₀] at hnone; cases hnone
        rw [if_neg this]
        exact hv₀
      · intro q hq
        have hqk : ¬ k = q := fun h => hq (by simp [h.symm])
        have := hout q (fun hmem => hq (by simp [hmem]))
        rw [this]
        show lookupField (setField r.bodyParsed k v) q = lookupField r.bodyParsed q
        rw [lookupField_setField, if_neg hqk]
      · intro hnd kv' hmem hnone'
        have hnd' : (rest.map Prod.fst).Nodup :=
          (List.nodup_cons.mp (by simpa using hnd)).2
        have hknot : k ∉ rest.map Prod.fst :=
          (List.nodup_cons.mp (by simpa using hnd)).1
        rcases List.mem_cons.mp hmem with hEq | hmem'
        · subst hEq
          have := hout k hknot
          rw [this]
          show lookupField (setField r.bodyParsed k v) k = some v
          rw [lookupField_setField, if_pos rfl]
        · have hne : kv'.1 ≠ k := by
            intro h
            exact hknot (h ▸ List.mem_map_of_mem Prod.fst hmem')
          apply hadd hnd' kv' hmem'
          show lookupField (setField r.bodyParsed k v) kv'.1 = none
          rw [lookupField_setField, if_neg (fun h => hne h.symm)]
          exact hnone'

/-- The `SetOverrideParams` loop: succeeds on a consistent request,
preserves consistency and the derived model, binds every parameter key
(duplicate-free) to its value, and leaves other keys untouched. -/
theorem setOverrideParamsLoop_spec (ps : List (String × Json)) :
    ∀ r : TextToSpeechRequest, Consistent r → (ps.map Prod.fst).Nodup →
    ∃ r', setOverrideParamsLoop r ps = .ok r' ∧ Consistent r' ∧
      r'.Model = r.Model ∧
      (∀ kv ∈ ps, lookupField r'.bodyParsed kv.1 = some kv.2) ∧
      (∀ q, q ∉ ps.map Prod.fst →
        lookupField r'.bodyParsed q = lookupField r.bodyParsed q) := by
  induction ps with
  | nil =>
    intro r hc _
    exact ⟨r, rfl, hc, rfl, fun kv h => by simp at h, fun q _ => rfl⟩
  | cons kv rest ih =>
    obtain ⟨k, v⟩ := kv
    intro r hc hnd
    have hnd' : (rest.map Prod.fst).Nodup :=
      (List.nodup_cons.mp (by simpa using hnd)).2
    have hknot : k ∉ rest.map Prod.fst :=
      (List.nodup_cons.mp (by simpa using hnd)).1
    have hbuf : r.bodyBuffer = Json.obj r.bodyParsed := hc
    set r₁ : TextToSpeechRequest :=
      { r with bodyBuffer := Json.obj (setField r.bodyParsed k v),
               bodyParsed := setField r.bodyParsed k v } with hr₁
    obtain ⟨r', hok, hc', hm, hbind, hout⟩ := ih r₁ rfl hnd'
    have hstep : setOverrideParamsLoop r ((k, v) :: rest) =
        setOverrideParamsLoop r₁ rest := by
      rw [setOverrideParamsLoop, hbuf, modify_add]
      rfl
    refine ⟨r', by rw [hstep]; exact hok, hc', by rw [hm], ?_, ?_⟩
    · intro kv' hmem
      rcases List.mem_cons.mp hmem with hEq | hmem'
      · subst hEq
        have := hout k hknot
        rw [this]
        show lookupField (setField r.bodyParsed k v) k = some v
        rw [lookupField_setField, if_pos rfl]
      · exact hbind kv' hmem'
    · intro q hq
      have hqk : ¬ k = q := fun h => hq (by simp [h.symm])
      have := hout q (fun hmem => hq (by simp [hmem]))
      rw [this]
      show lookupField (setField r.bodyParsed k v) q = lookupField r.bodyParsed q
      rw [lookupField_setField, if_neg hqk]

/-- `RemoveParamKeys` on a consistent request always succeeds and
preserves consistency. -/
theorem removeParamKeys_ok (keys : List String) :
    ∀ r : TextToSpeechRequest, Consistent r →
    ∃ r', RemoveParamKeys r keys = .ok r' ∧ Consistent r' := by
  induction keys with
  | nil => intro r hc; exact ⟨r, rfl, hc⟩
  | cons k rest ih =>
    intro r hc
    have hbuf : r.bodyBuffer = Json.obj r.bodyParsed := hc
    by_cases hk : (lookupField r.bodyParsed k).isSome
    · set r₁ : TextToSpeechRequest :=
        { r with bodyBuffer := Json.obj (removeField r.bodyParsed k),
                 bodyParsed := removeField r.bodyParsed k } with hr₁
      obtain ⟨r', hok, hc'⟩ := ih r₁ rfl
      refine ⟨r', ?_, hc'⟩
      rw [RemoveParamKeys, hbuf, modify_remove, if_pos hk]
      exact hok
    · set r₁ : TextToSpeechRequest :=
        { r with bodyBuffer := Json.obj r.bodyParsed,
                 bodyParsed := r.bodyParsed } with hr₁
      obtain ⟨r', hok, hc'⟩ := ih r₁ rfl
      refine ⟨r', ?_, hc'⟩
      rw [RemoveParamKeys, hbuf, modify_remove, if_neg hk]
      exact hok

/-- C8: on a request whose buffer and parsed mapping are consistent and
for a parameter map with (necessarily) duplicate-free keys,
`SetDefaultParams` succeeds, never overwrites an existing key, binds
exactly the absent parameter keys and touches nothing else;
`SetOverrideParams` succeeds and unconditionally binds every listed key;
`RemoveParamKeys` of a key absent from the body succeeds and returns the
request unchanged; and after each of these mutations the buffer re-parses
to the parsed mapping. -/
theorem C8_param_mutations (r : TextToSpeechRequest)
    (params : List (String × Json)) (hc : Consistent r)
    (hnodup : (params.map Prod.fst).Nodup) :
    (∃ r', SetDefaultParams r params = .ok r' ∧ Consistent r' ∧
      (∀ q v, lookupField r.bodyParsed q = some v →
        lookupField r'.bodyParsed q = some v) ∧
      (∀ kv ∈ params, lookupField r.bodyParsed kv.1 = none →
        lookupField r'.bodyParsed kv.1 = some kv.2) ∧
      (∀ q, q ∉ params.map Prod.fst →
        lookupField r'.bodyParsed q = lookupField r.bodyParsed q)) ∧
    (∃ r', SetOverrideParams r params = .ok r' ∧ Consistent r' ∧
      (∀ kv ∈ params, lookupField r'.bodyParsed kv.1 = some kv.2)) ∧
    (∀ k, lookupField r.bodyParsed k = none → RemoveParamKeys r [k] = .ok r) ∧
    (∀ keys, ∃ r', RemoveParamKeys r keys = .ok r' ∧ Consistent r') := by
  refine ⟨?_, ?_, ?_, fun keys => removeParamKeys_ok keys r hc⟩
  · obtain ⟨r', hok, hc', hm, hpres, hout, hadd⟩ := setDefaultParamsLoop_spec params r hc
    obtain ⟨hP, hB⟩ := updateModelFromParsed_body r'
    refine ⟨updateModelFromParsed r', ?_, ?_, ?_, ?_, ?_⟩
    · rw [SetDefaultParams]
      show (setDefaultParamsLoop r params).bind _ = _
      rw [hok]
      rfl
    · show (updateModelFromParsed r').bodyBuffer = _
      rw [hB, hP]
      exact hc'
    · intro q v h; rw [hP]; exact hpres q v h
    · intro kv hmem h; rw [hP]; exact hadd hnodup kv hmem h
    · intro q hq; rw [hP]; exact hout q hq
  · obtain ⟨r', hok, hc', hm, hbind, hout⟩ :=
      setOverrideParamsLoop_spec params r hc hnodup
    obtain ⟨hP, hB⟩ := updateModelFromParsed_body r'
    refine ⟨updateModelFromParsed r', ?_, ?_, ?_⟩
    · rw [SetOverrideParams]
      show (setOverrideParamsLoop r params).bind _ = _
      rw [hok]
      rfl
    · show (updateModelFromParsed r').bodyBuffer = _
      rw [hB, hP]
      exact hc'
    · intro kv hmem; rw [hP]; exact hbind kv hmem
  · intro k hnone
    obtain ⟨M, p, b⟩ := r
    have hb : b = Json.obj p := hc
    subst hb
    rw [RemoveParamKeys, modify_remove, if_neg (by rw [hnone]; simp)]
    rfl

/-- C8 witness: `C8_param_mutations` at the concrete consistent request
`{"model": "m"}` and the parameter list `[("speed", 2)]`. -/
theorem C8_param_mutations_witness :
    (∃ r', SetDefaultParams
        { Model := "m", bodyParsed := [("model", .str "m")],
          bodyBuffer := .obj [("model", .str "m")] } [("speed", .num 2)] = .ok r' ∧
      Consistent r' ∧
      (∀ q v, lookupField [("model", Json.str "m")] q = some v →
        lookupField r'.bodyParsed q = some v) ∧
      (∀ kv ∈ [(("speed" : String), Json.num 2)],
        lookupField [("model", Json.str "m")] kv.1 = none →
        lookupField r'.bodyParsed kv.1 = some kv.2) ∧
      (∀ q, q ∉ [(("speed" : String), Json.num 2)].map Prod.fst →
        lookupField r'.bodyParsed q = lookupField [("model", Json.str "m")] q)) ∧
    (∃ r', SetOverrideParams
        { Model := "m", bodyParsed := [("model", .str "m")],
          bodyBuffer := .obj [("model", .str "m")] } [("speed", .num 2)] = .ok r' ∧
      Consistent r' ∧
      (∀ kv ∈ [(("speed" : String), Json.num 2)],
        lookupField r'.bodyParsed kv.1 = some kv.2)) ∧
    (∀ k, lookupField [("model", Json.str "m")] k = none →
      RemoveParamKeys
        { Model := "m", bodyParsed := [("model", .str "m")],
          bodyBuffer := .obj [("model", .str "m")] } [k] = .ok
        { Model := "m", bodyParsed := [("model", .str "m")],
          bodyBuffer := .obj [("model", .str "m")] }) ∧
    (∀ keys, ∃ r', RemoveParamKeys
        { Model := "m", bodyParsed := [("model", .str "m")],
          bodyBuffer := .obj [("model", .str "m")] } keys = .ok r' ∧ Consistent r') :=
  C8_param_mutations
    { Model := "m", bodyParsed := [("model", .str "m")],
      bodyBuffer := .obj [("model", .str "m")] }
    [("speed", .num 2)] rfl (by simp)

end C8

section C9

open Ratelimit

/-- `tryConsume`, refill-and-consume case: positive elapsed refill and
enough tokens afterwards. -/
theorem tryConsume_rc (capacity rate : Nat) (b : TokenBucket) (now : Nat)
    (hadd : 0 < ((now - b.lastUpdate) / nsPerSec) * rate)
    (hcons : precision ≤ min (b.tokens + ((now - b.lastUpdate) / nsPerSec) * rate) capacity) :
    tryConsume capacity rate b now =
      ({ tokens := min (b.tokens + ((now - b.lastUpdate) / nsPerSec) * rate) capacity - precision,
         lastUpdate := now }, true) := by
  simp only [tryConsume, if_pos hadd, if_pos hcons]

/-- `tryConsume`, refill-without-consume case. -/
theorem tryConsume_rn (capacity rate : Nat) (b : TokenBucket) (now : Nat)
    (hadd : 0 < ((now - b.lastUpdate) / nsPerSec) * rate)
    (hcons : ¬ precision ≤ min (b.tokens + ((now - b.lastUpdate) / nsPerSec) * rate) capacity) :
    tryConsume capacity rate b now =
      ({ tokens := min (b.tokens + ((now - b.lastUpdate) / nsPerSec) * rate) capacity,
         lastUpdate := now }, false) := by
  simp only [tryConsume, if_pos hadd, if_neg hcons]

/-- `tryConsume`, consume-without-refill case. -/
theorem tryConsume_nc (capacity rate : Nat) (b : TokenBucket) (now : Nat)
    (hadd : ¬ 0 < ((now - b.lastUpdate) / nsPerSec) * rate)
    (hcons : precision ≤ b.tokens) :
    tryConsume capacity rate b now =
      ({ tokens := b.tokens - precision, lastUpdate := b.lastUpdate }, true) := by
  simp only [tryConsume, if_neg hadd, if_pos hcons]

/-- `tryConsume`, deny-without-refill case. -/
theorem tryConsume_nn (capacity rate : Nat) (b : TokenBucket) (now : Nat)
    (hadd : ¬ 0 < ((now - b.lastUpdate) / nsPerSec) * rate)
    (hcons : ¬ precision ≤ b.tokens) :
    tryConsume capacity rate b now = (b, false) := by
  simp only [tryConsume, if_neg hadd, if_neg hcons]

/-- Truncated-division subadditivity along a split point: the whole
seconds elapsed up to `t` plus the whole seconds remaining after `t`
never exceed the whole seconds of the full span. -/
theorem slack_step (l t B : Nat) (hl : l ≤ t) (ht : t < B) :
    (t - l) / nsPerSec + (B - 1 - t) / nsPerSec ≤ (B - 1 - l) / nsPerSec := by
  have h := Nat.add_div_le_add_div (t - l) (B - 1 - t) nsPerSec
  have heq : (t - l) + (B - 1 - t) = B - 1 - l := by omega
  rw [heq] at h
  exact h

/-- With refill rate 0 the token count never grows, so the requests a
bucket ever allows are bounded by its initial tokens. -/
theorem runBucket_zero_rate (capacity : Nat) :
    ∀ (ts : List Nat) (b : TokenBucket),
      (runBucket capacity 0 b ts).2 * precision ≤ b.tokens := by
  intro ts
  induction ts with
  | nil => intro b; simp [runBucket]
  | cons t rest ih =>
    intro b
    have hadd : ¬ 0 < ((t - b.lastUpdate) / nsPerSec) * 0 := by simp
    rw [runBucket]
    by_cases hcons : precision ≤ b.tokens
    · rw [tryConsume_nc capacity 0 b t hadd hcons]
      have hih := ih { tokens := b.tokens - precision, lastUpdate := b.lastUpdate }
      simp only at hih ⊢
      rw [Nat.add_mul, if_pos trivial, Nat.one_mul]
      omega
    · rw [tryConsume_nn capacity 0 b t hadd hcons]
      have hih := ih b
      simp only at hih ⊢
      rw [Nat.add_mul, if_neg (by simp), Nat.zero_mul, Nat.zero_add]
      omega

/-- The core trace bound: over timestamps that are sorted, start no
earlier than the bucket's `lastUpdate` and stay below `B`, the allowed
requests are covered by the initial tokens plus the refill the remaining
whole seconds up to `B` can produce. -/
theorem runBucket_le (capacity rate B : Nat) :
    ∀ (ts : List Nat) (b : TokenBucket),
      b.tokens ≤ capacity →
      ts.Pairwise (· ≤ ·) →
      (∀ t ∈ ts, b.lastUpdate ≤ t) →
      (∀ t ∈ ts, t < B) →
      (runBucket capacity rate b ts).2 * precision ≤
        b.tokens + ((B - 1 - b.lastUpdate) / nsPerSec) * rate := by
  intro ts
  induction ts with
  | nil => intro b _ _ _ _; simp [runBucket]
  | cons t rest ih =>
    intro b htok hsort hstart hend
    have hlt : b.lastUpdate ≤ t := hstart t (List.mem_cons_self _ _)
    have htB : t < B := hend t (List.mem_cons_self _ _)
    obtain ⟨hrest_ge, hsort'⟩ := List.pairwise_cons.mp hsort
    have hend' : ∀ t' ∈ rest, t' < B := fun t' h => hend t' (List.mem_cons_of_mem _ h)
    have hmul : ((t - b.lastUpdate) / nsPerSec) * rate +
        ((B - 1 - t) / nsPerSec) * rate ≤
        ((B - 1 - b.lastUpdate) / nsPerSec) * rate := by
      rw [← Nat.add_mul]
      exact Nat.mul_le_mul_right rate (slack_step b.lastUpdate t B hlt htB)
    rw [runBucket]
    by_cases hadd : 0 < ((t - b.lastUpdate) / nsPerSec) * rate
    · by_cases hcons : precision ≤
          min (b.tokens + ((t - b.lastUpdate) / nsPerSec) * rate) capacity
      · rw [tryConsume_rc capacity rate b t hadd hcons]
        have hih := ih
          { tokens := min (b.tokens + ((t - b.lastUpdate) / nsPerSec) * rate)
              capacity - precision,
            lastUpdate := t }
          (by simp only; omega) hsort' (fun t' h => hrest_ge t' h) hend'
        simp only at hih ⊢
        rw [Nat.add_mul, if_pos trivial, Nat.one_mul]
        omega
      · rw [tryConsume_rn capacity rate b t hadd hcons]
        have hih := ih
          { tokens := min (b.tokens + ((t - b.lastUpdate) / nsPerSec) * rate)
              capacity,
            lastUpdate := t }
          (by simp only; omega) hsort' (fun t' h => hrest_ge t' h) hend'
        simp only at hih ⊢
        rw [Nat.add_mul, if_neg (by simp), Nat.zero_mul, Nat.zero_add]
        omega
    · by_cases hcons : precision ≤ b.tokens
      · rw [tryConsume_nc capacity rate b t hadd hcons]
        have hih := ih { tokens := b.tokens - precision, lastUpdate := b.lastUpdate }
          (by simp only; omega) hsort'
          (fun t' h => hstart t' (List.mem_cons_of_mem _ h)) hend'
        simp only at hih ⊢
        rw [Nat.add_mul, if_pos trivial, Nat.one_mul]
        omega
      · rw [tryConsume_nn capacity rate b t hadd hcons]
        have hih := ih b htok hsort'
          (fun t' h => hstart t' (List.mem_cons_of_mem _ h)) hend'
        simp only at hih ⊢
        rw [Nat.add_mul, if_neg (by simp), Nat.zero_mul, Nat.zero_add]
        omega

/-- A bucket holding at least `n * precision` tokens allows the next `n`
requests unconditionally, since refills only add tokens. -/
theorem runBucket_all_allowed (capacity rate : Nat) :
    ∀ (ts : List Nat) (b : TokenBucket),
      b.tokens ≤ capacity →
      ts.length * precision ≤ b.tokens →
      (runBucket capacity rate b ts).2 = ts.length := by
  intro ts
  induction ts with
  | nil => intro b _ _; rfl
  | cons t rest ih =>
    intro b htok hlen
    rw [List.length_cons, Nat.add_mul, Nat.one_mul] at hlen
    have hprec : precision ≤ b.tokens := by
      have : 0 ≤ rest.length * precision := Nat.zero_le _
      omega
    rw [runBucket]
    by_cases hadd : 0 < ((t - b.lastUpdate) / nsPerSec) * rate
    · have hcons : precision ≤
          min (b.tokens + ((t - b.lastUpdate) / nsPerSec) * rate) capacity := by
        omega
      rw [tryConsume_rc capacity rate b t hadd hcons]
      have hih := ih
        { tokens := min (b.tokens + ((t - b.lastUpdate) / nsPerSec) * rate)
            capacity - precision,
          lastUpdate := t }
        (by simp only; omega) (by simp only; omega)
      simp only at hih ⊢
      rw [hih, if_pos trivial, List.length_cons]
      omega
    · have hcons : precision ≤ b.tokens := hprec
      rw [tryConsume_nc capacity rate b t hadd hcons]
      have hih := ih { tokens := b.tokens - precision, lastUpdate := b.lastUpdate }
        (by simp only; omega) (by simp only; omega)
      simp only at hih ⊢
      rw [hih, if_pos trivial, List.length_cons]
      omega

/-- Splitting a request trace splits the allowed count. -/
theorem runBucket_append (capacity rate : Nat) :
    ∀ (l₁ l₂ : List Nat) (b : TokenBucket),
      (runBucket capacity rate b (l₁ ++ l₂)).2 =
        (runBucket capacity rate b l₁).2 +
          (runBucket capacity rate (runBucket capacity rate b l₁).1 l₂).2 := by
  intro l₁
  induction l₁ with
  | nil => intro l₂ b; simp [runBucket]
  | cons t rest ih =>
    intro l₂ b
    rw [List.cons_append, runBucket, runBucket]
    simp only [ih]
    omega

/-- C9 counterexample: with limit L = 10 and window W = 10 s, a fresh
bucket (as `checkBucketLocal` creates on first access) allows 19
requests inside the single window [0 s, 10 s): a burst of 10 at t = 0
drains the full bucket, and the refill of `rate = L*precision/W` tokens
per second admits one more request at each of t = 1 s, ..., 9 s.  19
exceeds the claimed bound L + 1 = 11. -/
theorem C9_counterexample :
    (∀ t ∈ [0, 0, 0, 0, 0, 0, 0, 0, 0, 0, 1000000000, 2000000000, 3000000000,
        4000000000, 5000000000, 6000000000, 7000000000, 8000000000,
        9000000000], t < 10 * nsPerSec) ∧
    (runBucket (10 * precision) (newRate (10 * precision) 10)
      (initBucket (10 * precision) 0)
      [0, 0, 0, 0, 0, 0, 0, 0, 0, 0, 1000000000, 2000000000, 3000000000,
        4000000000, 5000000000, 6000000000, 7000000000, 8000000000,
        9000000000]).2 = 19 ∧
    ¬ (19 ≤ 10 + 1) := by
  refine ⟨by decide, by decide, by decide⟩

/-- C9 (amended): for the local token bucket with limit `L` and a window
of `W` whole seconds, the number of requests `checkBucketLocal` allows
within any window of length `W` is at most `2 * L` — the burst capacity
`L * precision` plus at most `W` whole seconds of refill at
`rate = L*precision/W` — not `L + 1` as claimed; and the "at least L"
part holds: from a freshly created bucket any schedule of `L` or more
requests has at least its first `L` requests allowed. -/
theorem C9_token_bucket_window (L windowSec T : Nat) (b0 : TokenBucket)
    (ts : List Nat) (hW : 0 < windowSec)
    (hsort : ts.Pairwise (· ≤ ·))
    (hin : ∀ t ∈ ts, T ≤ t ∧ t < T + windowSec * nsPerSec)
    (htok : b0.tokens ≤ L * precision)
    (hlast : ∀ t ∈ ts, b0.lastUpdate ≤ t) :
    (runBucket (L * precision) (newRate (L * precision) windowSec) b0 ts).2 ≤
        2 * L ∧
    (∀ t0 : Nat, L ≤ ts.length →
      L ≤ (runBucket (L * precision) (newRate (L * precision) windowSec)
        (initBucket (L * precision) t0) ts).2) := by
  have hprec : (0 : Nat) < precision := by rw [precision]; omega
  have hns : (0 : Nat) < nsPerSec := by rw [nsPerSec]; omega
  set cap := L * precision with hcap
  set rate := newRate cap windowSec with hrate
  have hrate_le : windowSec * rate ≤ cap := by
    rw [hrate, newRate, Nat.mul_comm]
    exact Nat.div_mul_le_self cap windowSec
  set B := T + windowSec * nsPerSec with hB
  constructor
  · -- upper bound
    have hend : ∀ t ∈ ts, t < B := fun t h => (hin t h).2
    have h2L : (runBucket cap rate b0 ts).2 * precision ≤ 2 * cap := by
      by_cases hrate0 : rate = 0
      · have h0 := runBucket_zero_rate cap ts b0
        rw [hrate0]
        calc (runBucket cap 0 b0 ts).2 * precision ≤ b0.tokens := h0
          _ ≤ 2 * cap := by omega
      · cases ts with
        | nil => simp [runBucket]
        | cons t₁ rest =>
          have ht₁T : T ≤ t₁ := (hin t₁ (List.mem_cons_self _ _)).1
          have ht₁B : t₁ < B := (hin t₁ (List.mem_cons_self _ _)).2
          have hl₁ : b0.lastUpdate ≤ t₁ := hlast t₁ (List.mem_cons_self _ _)
          obtain ⟨hge, hsort'⟩ := List.pairwise_cons.mp hsort
          have hend' : ∀ t ∈ rest, t < B :=
            fun t h => (hin t (List.mem_cons_of_mem _ h)).2
          by_cases hadd : 0 < ((t₁ - b0.lastUpdate) / nsPerSec) * rate
          · -- first refill pins lastUpdate to t₁ ∈ [T, B)
            have hslack : (B - 1 - t₁) / nsPerSec ≤ windowSec - 1 := by
              apply Nat.le_of_lt_succ
              rw [Nat.div_lt_iff_lt_mul hns, Nat.succ_eq_add_one]
              have h3 : (windowSec - 1 + 1) * nsPerSec = windowSec * nsPerSec := by
                have h2 : windowSec - 1 + 1 = windowSec := by omega
                rw [h2]
              rw [h3]
              omega
            have hSt : ((B - 1 - t₁) / nsPerSec) * rate ≤ (windowSec - 1) * rate :=
              Nat.mul_le_mul_right rate hslack
            have hwrate : (windowSec - 1) * rate + rate ≤ cap := by
              have h4 : (windowSec - 1) * rate + rate = windowSec * rate := by
                have h5 : windowSec - 1 + 1 = windowSec := by omega
                calc (windowSec - 1) * rate + rate = (windowSec - 1 + 1) * rate := by
                      rw [Nat.add_mul, Nat.one_mul]
                  _ = windowSec * rate := by rw [h5]
              omega
            rw [runBucket]
            by_cases hcons : precision ≤
                min (b0.tokens + ((t₁ - b0.lastUpdate) / nsPerSec) * rate) cap
            · rw [tryConsume_rc cap rate b0 t₁ hadd hcons]
              have hrest := runBucket_le cap rate B rest
                { tokens := min (b0.tokens +
                    ((t₁ - b0.lastUpdate) / nsPerSec) * rate) cap - precision,
                  lastUpdate := t₁ }
                (by simp only; omega) hsort' (fun t' h => hge t' h) hend'
              simp only at hrest ⊢
              rw [Nat.add_mul, if_pos trivial, Nat.one_mul]
              omega
            · rw [tryConsume_rn cap rate b0 t₁ hadd hcons]
              have hrest := runBucket_le cap rate B rest
                { tokens := min (b0.tokens +
                    ((t₁ - b0.lastUpdate) / nsPerSec) * rate) cap,
                  lastUpdate := t₁ }
                (by simp only; omega) hsort' (fun t' h => hge t' h) hend'
              simp only at hrest ⊢
              rw [Nat.add_mul, if_neg (by simp), Nat.zero_mul, Nat.zero_add]
              omega
          · -- no refill on the first request: lastUpdate is within one
            -- second of the window start; bound the whole trace at once
            have hclose : t₁ - b0.lastUpdate < nsPerSec := by
              by_contra hfar
              push_neg at hfar
              have hpos : 0 < (t₁ - b0.lastUpdate) / nsPerSec :=
                Nat.div_pos hfar hns
              have : 0 < ((t₁ - b0.lastUpdate) / nsPerSec) * rate :=
                Nat.mul_pos hpos (Nat.pos_of_ne_zero hrate0)
              exact hadd this
            have hslack : (B - 1 - b0.lastUpdate) / nsPerSec ≤ windowSec := by
              apply Nat.le_of_lt_succ
              rw [Nat.div_lt_iff_lt_mul hns, Nat.succ_eq_add_one]
              have h6 : (windowSec + 1) * nsPerSec = windowSec * nsPerSec + nsPerSec := by
                rw [Nat.add_mul, Nat.one_mul]
              rw [h6]
              omega
            have hSl : ((B - 1 - b0.lastUpdate) / nsPerSec) * rate ≤
                windowSec * rate := Nat.mul_le_mul_right rate hslack
            have hbound := runBucket_le cap rate B (t₁ :: rest) b0 htok hsort
              hlast hend
            omega
    have h2L' : (runBucket cap rate b0 ts).2 * precision ≤ (2 * L) * precision := by
      calc (runBucket cap rate b0 ts).2 * precision ≤ 2 * cap := h2L
        _ = (2 * L) * precision := by rw [hcap]; ring
    exact Nat.le_of_mul_le_mul_right h2L' hprec
  · -- lower bound from a fresh bucket
    intro t0 hlen
    have htake : (ts.take L).length = L := by
      rw [List.length_take]
      omega
    have happ := runBucket_append cap rate (ts.take L) (ts.drop L)
      (initBucket cap t0)
    have hall := runBucket_all_allowed cap rate (ts.take L) (initBucket cap t0)
      (le_refl cap) (by rw [htake, initBucket])
    rw [← List.take_append_drop L ts, happ, hall, htake]
    omega

/-- C9 witness: `C9_token_bucket_window` at L = 10, W = 10 s, the fresh
bucket and trace of the counterexample: the 19 allowed requests satisfy
the 2·L = 20 bound, and at least L = 10 are allowed. -/
theorem C9_token_bucket_window_witness :
    (runBucket (10 * precision) (newRate (10 * precision) 10)
      (initBucket (10 * precision) 0)
      [0, 0, 0, 0, 0, 0, 0, 0, 0, 0, 1000000000, 2000000000, 3000000000,
        4000000000, 5000000000, 6000000000, 7000000000, 8000000000,
        9000000000]).2 ≤ 2 * 10 ∧
    (∀ t0 : Nat, 10 ≤ ([0, 0, 0, 0, 0, 0, 0, 0, 0, 0, 1000000000, 2000000000,
        3000000000, 4000000000, 5000000000, 6000000000, 7000000000, 8000000000,
        9000000000] : List Nat).length →
      10 ≤ (runBucket (10 * precision) (newRate (10 * precision) 10)
        (initBucket (10 * precision) t0)
        [0, 0, 0, 0, 0, 0, 0, 0, 0, 0, 1000000000, 2000000000, 3000000000,
          4000000000, 5000000000, 6000000000, 7000000000, 8000000000,
          9000000000]).2) :=
  C9_token_bucket_window 10 10 0 (initBucket (10 * precision) 0)
    [0, 0, 0, 0, 0, 0, 0, 0, 0, 0, 1000000000, 2000000000, 3000000000,
      4000000000, 5000000000, 6000000000, 7000000000, 8000000000, 9000000000]
    (by decide) (by decide) (by decide) (by decide) (by decide)

end C9

end Knoway
